import Mathlib

/-!
Verification development for the superbowl-square-stats core:
the pasted-grid extraction engine (`src/lib/squares-parse.ts`) and the
odds-to-EV computation engine (`src/components/squares-dashboard.tsx`,
the `squares-analysis` module).

Text is modelled as `List Char`; JavaScript numbers that hold odds
quotations and digits are modelled as `Int`; probability and EV arithmetic
(IEEE doubles in the source) is modelled over `ℚ`, so the floating-point
tolerance claims are settled by the exact rational identities that the
double computation approximates.  Thrown `Error`s are modelled by `Except`
with one constructor per distinct error condition of the source.
-/

attribute [local semireducible] Rat.add Rat.mul Rat.inv Rat.sub

set_option maxRecDepth 100000

/-- Text as a character list (JS strings, treated as codepoint sequences). -/
abbrev Str := List Char

/-- The character class of the JS `\s` regex and `String.trim`, for the
whitespace characters that can occur in pasted grid text (space, tab,
newline, carriage return, vertical tab, form feed, no-break space). -/
def isJsSpace (c : Char) : Bool :=
  c = ' ' || c = '\t' || c = '\n' || c = '\r' ||
    c = Char.ofNat 11 || c = Char.ofNat 12 || c = Char.ofNat 160

/-- JS `String.prototype.trim`: drop leading and trailing whitespace. -/
def jsTrim (s : Str) : Str :=
  ((s.dropWhile isJsSpace).reverse.dropWhile isJsSpace).reverse

/-- Worker for `replace(/\s+/g, " ")`; the flag records whether the
previous character was whitespace (so a run emits one space only). -/
def collapseWsGo (prevSpace : Bool) : Str → Str
  | [] => []
  | c :: rest =>
    if isJsSpace c then
      if prevSpace then collapseWsGo true rest
      else ' ' :: collapseWsGo true rest
    else c :: collapseWsGo false rest

/-- `replace(/\s+/g, " ")`: every maximal whitespace run becomes one space. -/
def collapseWs (s : Str) : Str :=
  collapseWsGo false s

/-- `normalizeCell` of `squares-parse.ts`:
`String(value).replace(/\s+/g, " ").trim()`. -/
def normalizeCell (value : Str) : Str :=
  jsTrim (collapseWs value)

/-- Value of a decimal digit character. -/
def digitVal (c : Char) : Option Nat :=
  if '0' ≤ c ∧ c ≤ '9' then some (c.toNat - 48) else none

/-- Value of a non-empty all-decimal-digit string. -/
def decDigitsVal (cs : Str) : Option Nat :=
  if cs = [] then none
  else
    cs.foldl
      (fun acc c =>
        match acc, digitVal c with
        | some n, some d => some (10 * n + d)
        | _, _ => none)
      (some 0)

/-- Modelled from the platform `Number(...)` conversion used by
`maybeDigit`, restricted to optional-sign decimal integer numerals (the
only numeral forms that arise in pasted square grids). -/
def jsIntVal (cs : Str) : Option Int :=
  match cs with
  | '-' :: rest => (decDigitsVal rest).map (fun n => -(n : Int))
  | '+' :: rest => (decDigitsVal rest).map (fun n => (n : Int))
  | _ => (decDigitsVal cs).map (fun n => (n : Int))

/-- `maybeDigit` of `squares-parse.ts`: empty strings are rejected, the
value must be an integer between 0 and 9. -/
def maybeDigit (value : Str) : Option Int :=
  if value = [] then none
  else
    match jsIntVal value with
    | some n => if 0 ≤ n ∧ n ≤ 9 then some n else none
    | none => none

/-- `isValidDigitArray` of `squares-analysis`: ten entries, all distinct
(`new Set(digits).size === 10`), each an integer between 0 and 9.
(The `Number.isInteger` test of the source is vacuous over `Int`.) -/
def isValidDigitArray (digits : List Int) : Bool :=
  digits.length == 10 && digits.dedup.length == 10 &&
    digits.all (fun n => decide (0 ≤ n) && decide (n ≤ 9))

/-- `defaultDigits` of `squares-analysis`: the natural order 0-9. -/
def defaultDigits : List Int :=
  [0, 1, 2, 3, 4, 5, 6, 7, 8, 9]

/-- JS `split(sep)` on a single-character separator; always returns at
least one (possibly empty) piece. -/
def splitCh (sep : Char) : Str → List Str
  | [] => [[]]
  | c :: rest =>
    if c = sep then [] :: splitCh sep rest
    else
      match splitCh sep rest with
      | [] => [[c]]
      | cur :: more => (c :: cur) :: more

/-- Join with a single-character separator (inverse of `splitCh` on
separator-free pieces); used to build pasted-text inputs. -/
def joinCh (sep : Char) : List Str → Str
  | [] => []
  | [x] => x
  | x :: xs => x ++ sep :: joinCh sep xs

/-- The double-quote character (escape-free spelling). -/
def quoteChar : Char := Char.ofNat 34

/-- The apostrophe character. -/
def aposChar : Char := Char.ofNat 39

/-- The backtick character. -/
def tickChar : Char := Char.ofNat 96

/-- `replace(/```/g, "")`: drop triple-backtick fences, scanning left to
right without overlap, as the global regex replace does. -/
def removeTripleTick : Str → Str
  | [] => []
  | [c] => [c]
  | [c, d] => [c, d]
  | c :: d :: e :: rest =>
    if c = tickChar ∧ d = tickChar ∧ e = tickChar then removeTripleTick rest
    else c :: removeTripleTick (d :: e :: rest)

/-- Index of the last occurrence of `c` in `l`, if any. -/
def lastIdxOf (l : Str) (c : Char) : Option Nat :=
  match l.reverse.findIdx? (· = c) with
  | none => none
  | some j => some (l.length - 1 - j)

/-- `replace(/^\s*\n+/, "")`: if the leading whitespace run contains a
newline, drop everything up to and including its last newline. -/
def stripLeadingBlank (cs : Str) : Str :=
  match lastIdxOf (cs.takeWhile isJsSpace) '\n' with
  | none => cs
  | some i => cs.drop (i + 1)

/-- `replace(/\n+\s*$/, "")`: if the trailing whitespace run contains a
newline, drop everything from its first newline on. -/
def stripTrailingBlank (cs : Str) : Str :=
  (stripLeadingBlank cs.reverse).reverse

/-- The wrapper pairs of `unwrapTextBlock`, in source priority order:
code fences, curly quotes, straight quotes, apostrophes, backticks,
parentheses. -/
def wrapperPairs : List (Str × Str) :=
  [("```".toList, "```".toList),
   ([Char.ofNat 0x201C], [Char.ofNat 0x201D]),
   ([quoteChar], [quoteChar]),
   ([aposChar], [aposChar]),
   ([tickChar], [tickChar]),
   (['('], [')'])]

/-- `unwrapTextBlock` of `squares-parse.ts`: strip one matched wrapping
pair from the trimmed text, else only trim surrounding blank lines
(preserving interior leading whitespace). -/
def unwrapTextBlock (text : Str) : Str :=
  let trimmed := jsTrim text
  match wrapperPairs.find? (fun p =>
      p.1.isPrefixOf trimmed && p.2.isSuffixOf trimmed &&
        decide (p.1.length + p.2.length < trimmed.length)) with
  | some p => jsTrim ((trimmed.take (trimmed.length - p.2.length)).drop p.1.length)
  | none => stripTrailingBlank (stripLeadingBlank text)

/-- Worker for `parseCsvLine`: quote-aware field splitting.  A double
quote toggles the in-quotes state, two consecutive double quotes inside
quotes emit one literal quote, and the delimiter only ends a field when
outside quotes. -/
def parseCsvLineGo (delim : Char) : Str → Bool → Str → List Str → List Str
  | [], _, current, cells => cells ++ [current]
  | [c], inQ, current, cells =>
    if c = quoteChar then cells ++ [current]
    else if c = delim ∧ ¬inQ then cells ++ [current, []]
    else cells ++ [current ++ [c]]
  | c :: c2 :: rest, inQ, current, cells =>
    if c = quoteChar then
      if inQ then
        if c2 = quoteChar then
          parseCsvLineGo delim rest true (current ++ [quoteChar]) cells
        else parseCsvLineGo delim (c2 :: rest) false current cells
      else parseCsvLineGo delim (c2 :: rest) true current cells
    else if c = delim ∧ ¬inQ then
      parseCsvLineGo delim (c2 :: rest) inQ [] (cells ++ [current])
    else parseCsvLineGo delim (c2 :: rest) inQ (current ++ [c]) cells

/-- `parseCsvLine` of `squares-parse.ts`. -/
def parseCsvLine (line : Str) (delim : Char) : List Str :=
  parseCsvLineGo delim line false [] []

/-- One loop iteration of the ragged-row merge of `parseRows`: the state
is the output built so far plus the pending buffer.  A row of the target
width flushes the pending buffer and passes through; other rows are
accumulated into the buffer, which is flushed in `targetColumns`-sized
pieces once it reaches the target width. -/
def mergeStep (target : Nat) (st : List (List Str) × Option (List Str))
    (row : List Str) : List (List Str) × Option (List Str) :=
  if row.length = target then
    match st.2 with
    | some p => (st.1 ++ [p, row], none)
    | none => (st.1 ++ [row], none)
  else
    let next :=
      match st.2 with
      | none => (st.1, row)
      | some p =>
        if p.length < target ∧ row.length < target then (st.1, p ++ row)
        else (st.1 ++ [p], row)
    if target ≤ next.2.length then
      (next.1 ++ [next.2.take target],
       if target < next.2.length then some (next.2.drop target) else none)
    else (next.1, some next.2)

/-- The ragged-row reassembly loop of `parseRows`, including the final
flush of a non-blank trailing pending buffer. -/
def mergeRaggedRows (target : Nat) (rows : List (List Str)) : List (List Str) :=
  match rows.foldl (mergeStep target) ([], none) with
  | (out, some p) => if p.any (fun cell => !cell.isEmpty) then out ++ [p] else out
  | (out, none) => out

/-- A row is kept when some cell is non-empty
(`row.some((cell) => cell.length > 0)`). -/
def rowNonBlank (row : List Str) : Bool :=
  row.any (fun cell => !cell.isEmpty)

/-- The cleaned text of `parseRows`: unwrap, then normalize no-break
spaces, fullwidth commas and carriage returns, then drop code fences. -/
def cleanedText (text : Str) : Str :=
  removeTripleTick
    (((((unwrapTextBlock text).map
          (fun c => if c = Char.ofNat 160 then ' ' else c)).map
        (fun c => if c = Char.ofNat 0xFF0C then ',' else c)).filter
      (· ≠ '\r')))

/-- The non-blank input lines of `parseRows`, with per-line trailing
whitespace removed. -/
def parsedLines (text : Str) : List Str :=
  ((splitCh '\n' (cleanedText text)).map
      (fun line => (line.reverse.dropWhile isJsSpace).reverse)).filter
    (fun line => !(jsTrim line).isEmpty)

/-- The delimiter-split rows of the comma/semicolon branch of
`parseRows`, before ragged-row reassembly. -/
def csvRowsOf (lines : List Str) (delim : Char) : List (List Str) :=
  (lines.map (fun line => (parseCsvLine line delim).map normalizeCell)).filter
    rowNonBlank

/-- `Math.max(1, ...csvRows.map((row) => row.length))`. -/
def targetColumnsOf (csvRows : List (List Str)) : Nat :=
  (csvRows.map List.length).foldl Nat.max 1

/-- `parseRows` of `squares-parse.ts`: tokenize pasted text into rows of
normalized cells, preferring tab splitting, else comma/semicolon
splitting with quote-aware fields and ragged-row reassembly, else
one-column lines. -/
def parseRows (text : Str) : List (List Str) :=
  let lines := parsedLines text
  if lines.any (fun line => line.contains '\t') then
    (lines.map (fun line => (splitCh '\t' line).map normalizeCell)).filter
      rowNonBlank
  else
    let commaLines := (lines.filter (fun line => line.contains ',')).length
    let semicolonLines := (lines.filter (fun line => line.contains ';')).length
    if commaLines = 0 ∧ semicolonLines = 0 then
      (lines.map (fun line => [normalizeCell line])).filter rowNonBlank
    else
      let delim := if semicolonLines ≤ commaLines then ',' else ';'
      let csvRows := csvRowsOf lines delim
      (mergeRaggedRows (targetColumnsOf csvRows) csvRows).filter rowNonBlank

/-- One cell of a new dynamic-programming row for `editDistance`:
`dp[i][j] = min(dp[i-1][j] + 1, dp[i][j-1] + 1, dp[i-1][j-1] + cost)`.
`prev` is the tail of the previous row aligned at column `j`, `diag` is
`dp[i-1][j-1]` and `left` is `dp[i][j-1]`. -/
def levRowGo (x : Char) : Str → List Nat → Nat → Nat → List Nat
  | [], _, _, _ => []
  | _ :: _, [], _, _ => []
  | yc :: brest, pj :: prest, diag, left =>
    let cost := if x = yc then 0 else 1
    let v := Nat.min (Nat.min (pj + 1) (left + 1)) (diag + cost)
    v :: levRowGo x brest prest pj v

/-- Row `i` of the `editDistance` table from row `i - 1`. -/
def levRow (x : Char) (b : Str) (i : Nat) (prevRow : List Nat) : List Nat :=
  match prevRow with
  | [] => [i]
  | p0 :: ptail => i :: levRowGo x b ptail p0 i

/-- Fold the rows of the `editDistance` table over the characters of the
first string. -/
def levRows (b : Str) : Str → Nat → List Nat → List Nat
  | [], _, row => row
  | x :: arest, i, row => levRows b arest (i + 1) (levRow x b (i + 1) row)

/-- `editDistance` of `squares-parse.ts`: the Levenshtein distance,
computed row by row exactly as the source's dp table
(`dp[i][0] = i`, `dp[0][j] = j`, and the three-way minimum above);
the answer is `dp[a.length][b.length]`, the last cell of the last row. -/
def editDistance (a b : Str) : Nat :=
  (levRows b a 0 (List.range (b.length + 1))).getLastD 0

/-- The fixed variant set of `normalizeOwnerName`. -/
def stevenVariants : List Str :=
  ["steven".toList, "steve".toList, "stevie".toList, "stevo".toList,
   "seven".toList, "tseven".toList]

/-- `normalizeOwnerName` of `squares-parse.ts`: canonicalize spellings
of the one configured participant name.  The cell is reduced to
lowercase letters; an exact variant match, a bounded-length affix match
(`stev`-prefixed or `seven`-suffixed, length at most 8), or an edit
distance of at most 2 at length 5-8 is replaced by the canonical display
name, otherwise the trimmed, whitespace-collapsed original is kept. -/
def normalizeOwnerName (value : Str) : Str :=
  let cleaned := normalizeCell value
  if cleaned = [] then cleaned
  else
    let lettersOnly := (cleaned.map Char.toLower).filter
      (fun c => 'a' ≤ c && c ≤ 'z')
    if lettersOnly = [] then cleaned
    else if stevenVariants.contains lettersOnly then "Steven".toList
    else if ("stev".toList.isPrefixOf lettersOnly ||
        "seven".toList.isSuffixOf lettersOnly) && lettersOnly.length ≤ 8 then
      "Steven".toList
    else if 5 ≤ lettersOnly.length && lettersOnly.length ≤ 8 &&
        editDistance lettersOnly "steven".toList ≤ 2 then
      "Steven".toList
    else cleaned

/-- The scan over window offsets inside `extractDigitsFromRow`: the
cells after position `start` are the suffix argument.  A window of ten
cells is accepted when every cell parses as a digit and the ten digits
form a valid digit array; otherwise the scan moves one offset right. -/
def extractDigitsGo (start : Nat) : List Str → Option (Nat × List Int)
  | [] => none
  | c :: rest =>
    if (c :: rest).length < 10 then none
    else
      let candidate := ((c :: rest).take 10).map maybeDigit
      if candidate.all Option.isSome then
        let digits := candidate.reduceOption
        if isValidDigitArray digits then some (start, digits)
        else extractDigitsGo (start + 1) rest
      else extractDigitsGo (start + 1) rest

/-- `extractDigitsFromRow` of `squares-parse.ts`: the first window of
ten consecutive digit cells forming a valid digit array, with its
starting offset. -/
def extractDigitsFromRow (cells : List Str) : Option (Nat × List Int) :=
  extractDigitsGo 0 cells

/-- The header search of `parseSquaresFromPastedText`: the first row
with a digit window wins and fixes the header row index, `startCol` and
the home digits. -/
def findHeaderGo (i : Nat) : List (List Str) → Option (Nat × Nat × List Int)
  | [] => none
  | row :: rest =>
    match extractDigitsFromRow row with
    | some p => some (i, p.1, p.2)
    | none => findHeaderGo (i + 1) rest

/-- Header search from the first row. -/
def findHeader (rows : List (List Str)) : Option (Nat × Nat × List Int) :=
  findHeaderGo 0 rows

/-- The owner-row collection loop of `parseSquaresFromPastedText`: skip
rows shorter than `startCol + 10` and rows whose ten-cell slice is
entirely empty; for the rest, record the name-normalized slice and the
optional away digit read from the cell left of the slice, stopping after
ten collected rows. -/
def collectOwnersGo (startCol : Nat) :
    List (List Str) → List (List Str) × List (Option Int) →
      List (List Str) × List (Option Int)
  | [], acc => acc
  | row :: rest, acc =>
    if row.length < startCol + 10 then collectOwnersGo startCol rest acc
    else
      let ownerSlice := (row.drop startCol).take 10
      if ownerSlice.all List.isEmpty then collectOwnersGo startCol rest acc
      else
        let ownerRows := acc.1 ++ [ownerSlice.map normalizeOwnerName]
        let aways := acc.2 ++
          [if 0 < startCol then maybeDigit (row.getD (startCol - 1) []) else none]
        if ownerRows.length = 10 then (ownerRows, aways)
        else collectOwnersGo startCol rest (ownerRows, aways)

/-- `SquaresBoard` of `squares-analysis`. -/
structure SquaresBoard where
  homeTeam : Str
  awayTeam : Str
  homeDigits : List Int
  awayDigits : List Int
  owners : List (List Str)
deriving DecidableEq, Repr

/-- The distinct failure conditions of `parseSquaresFromPastedText`. -/
inductive ParseError where
  /-- `"Expected at least 10 rows from pasted Excel data."` -/
  | underfilledPastedInput
  /-- `"Could not parse a full 10x10 owner grid from pasted text."` -/
  | incompleteOwnershipGrid
deriving DecidableEq, Repr

/-- The header column offset: the offset of the first digit window, or
0 when no row has one. -/
def parseStartCol (rows : List (List Str)) : Nat :=
  match findHeader rows with
  | some p => p.2.1
  | none => 0

/-- The home digit axis: the first digit window's digits, or natural
order when no header row is found. -/
def parseHomeDigits (rows : List (List Str)) : List Int :=
  match findHeader rows with
  | some p => p.2.2
  | none => defaultDigits

/-- The first candidate ownership row: the row after the header, or row
0 when no header row is found. -/
def parseOwnersStartRow (rows : List (List Str)) : Nat :=
  match findHeader rows with
  | some p => p.1 + 1
  | none => 0

/-- The collected owner rows and raw away digits. -/
def parseCollected (rows : List (List Str)) :
    List (List Str) × List (Option Int) :=
  collectOwnersGo (parseStartCol rows) (rows.drop (parseOwnersStartRow rows))
    ([], [])

/-- The away-axis digits before validation: each missing left-cell
digit falls back to the row's position index. -/
def awayDigitsResolve (aws : List (Option Int)) : List Int :=
  aws.enum.map (fun p => match p.2 with | some d => d | none => (p.1 : Int))

/-- The home team label heuristic: the cell above the header's first
digit column, when present and not digit-like. -/
def parseHomeTeam (rows : List (List Str)) : Str :=
  match findHeader rows with
  | some p =>
    if 0 < p.1 then
      let candidate := (rows.getD (p.1 - 1) []).getD (parseStartCol rows) []
      if candidate ≠ [] ∧ maybeDigit candidate = none then candidate
      else "Home Team".toList
    else "Home Team".toList
  | none => "Home Team".toList

/-- The away team label heuristic: the cell two columns left of the
ownership block's first row, when present and not digit-like. -/
def parseAwayTeam (rows : List (List Str)) : Str :=
  if parseOwnersStartRow rows < rows.length ∧ 1 < parseStartCol rows then
    let candidate :=
      (rows.getD (parseOwnersStartRow rows) []).getD (parseStartCol rows - 2) []
    if candidate ≠ [] ∧ maybeDigit candidate = none then candidate
    else "Away Team".toList
  else "Away Team".toList

/-- `parseSquaresFromPastedText` of `squares-parse.ts` (the grid
extractor): tokenize, check for at least ten rows, locate the header
window, collect ten owner rows, resolve the away axis with the
position-index fallback and the natural-order degrade, and read the
team labels. -/
def parseSquaresFromPastedText (text : Str) : Except ParseError SquaresBoard :=
  if (parseRows text).length < 10 then .error .underfilledPastedInput
  else if (parseCollected (parseRows text)).1.length ≠ 10 then
    .error .incompleteOwnershipGrid
  else
    .ok ⟨parseHomeTeam (parseRows text), parseAwayTeam (parseRows text),
      parseHomeDigits (parseRows text),
      (if isValidDigitArray (awayDigitsResolve
          (parseCollected (parseRows text)).2) then
        awayDigitsResolve (parseCollected (parseRows text)).2
      else defaultDigits),
      (parseCollected (parseRows text)).1⟩

instance {ε α : Type} [DecidableEq ε] [DecidableEq α] : DecidableEq (Except ε α) :=
  fun x y =>
    match x, y with
    | .error a, .error b =>
      if h : a = b then isTrue (by rw [h]) else isFalse (fun hh => h (by injection hh))
    | .ok a, .ok b =>
      if h : a = b then isTrue (by rw [h]) else isFalse (fun hh => h (by injection hh))
    | .error _, .ok _ => isFalse (fun hh => by injection hh)
    | .ok _, .error _ => isFalse (fun hh => by injection hh)

/-- A tab-separated line, as pasted from a spreadsheet. -/
def renderLine (cells : List Str) : Str :=
  joinCh '\t' cells

/-- A pasted block: newline-joined lines with a final newline. -/
def renderGrid (lines : List Str) : Str :=
  joinCh '\n' lines ++ ['\n']

/-- The decimal numeral of a digit cell. -/
def digitCell (d : Int) : Str :=
  (Nat.repr d.toNat).toList

/-- A correctly formatted pasted 10x10 grid in the Scenario C shape: a
label row, a digit header row, then the owner rows, all tab-separated. -/
def pastedGrid (labels : List Str) (digits : List Int)
    (owners : List (List Str)) : Str :=
  renderGrid ([renderLine labels, renderLine (digits.map digitCell)] ++
    owners.map renderLine)

/-- Modelled from the spec: the "modal column count", the most frequent
row width of the delimiter-split rows (first-seen width wins ties);
`parseRows` itself has no such notion, it uses the maximum width. -/
def modalColumnCount (rows : List (List Str)) : Nat :=
  let lens := rows.map List.length
  lens.foldl
    (fun best n =>
      if (lens.filter (· = best)).length < (lens.filter (· = n)).length then n
      else best)
    0

/-- `DIGITS` of `squares-analysis`. -/
def DIGITS : List Nat :=
  [0, 1, 2, 3, 4, 5, 6, 7, 8, 9]

/-- The distinct failure conditions of `computeSquaresAnalysis` and
`americanToRawProbability` (thrown `Error`s in the source). -/
inductive AnalysisError where
  /-- A digit axis is not a permutation of the digits 0-9
  (`"Home digits must contain each digit 0-9 exactly once."` /
  `"Away digits must contain each digit 0-9 exactly once."`). -/
  | malformedDigitAxis
  /-- `"Board ownership grid must be 10x10."` -/
  | malformedBoardShape
  /-- `"Missing odds for away=.., home=.."`, with the digit pair the
  message names. -/
  | missingOdds (away home : Nat)
  /-- `"American odds cannot be 0"` -/
  | invalidOdds
  /-- `"Unable to compute probabilities from odds."` -/
  | degenerateProbabilityMass
deriving DecidableEq, Repr

/-- `americanToRawProbability` of `squares-analysis`: a positive
quotation `a` gives `100 / (a + 100)`, a negative one gives
`|a| / (|a| + 100)`, and zero is rejected. -/
def americanToRawProbability (american : Int) : Except AnalysisError ℚ :=
  if 0 < american then .ok (100 / ((american : ℚ) + 100))
  else if american < 0 then .ok (|(american : ℚ)| / (|(american : ℚ)| + 100))
  else .error .invalidOdds

/-- An odds matrix: a grid of JS numbers indexed `[awayDigit][homeDigit]`,
where `none` stands for an absent (`undefined`) or non-finite (`NaN`)
entry — exactly the entries `Number.isFinite` rejects — and `some k` for
a finite integer quotation. -/
abbrev OddsGrid := List (List (Option Int))

/-- `odds[away]?.[home]`, `none` when the row or cell is absent. -/
def gridGet (g : OddsGrid) (a h : Nat) : Option Int :=
  match g.getD a [] |>.getD h none with
  | some k => some k
  | none => none

/-- The odds input of `computeSquaresAnalysis` (the metadata fields of
the source interface — event id, teams, fetch time, urls — are not read
by the computation and are omitted). -/
structure DraftKingsSquaresOdds where
  anyQuarterOdds : OddsGrid
  finalResultOdds : OddsGrid
deriving DecidableEq, Repr

/-- One cell of the blended raw-probability grid: both markets must have
a finite entry for the digit pair, then
`combined = finalResultWeight * rawFinal + anyQuarterWeight * rawAnyQuarter`. -/
def combinedRawCell (odds : DraftKingsSquaresOdds)
    (finalResultWeight anyQuarterWeight : ℚ) (a h : Nat) :
    Except AnalysisError ℚ :=
  match gridGet odds.finalResultOdds a h, gridGet odds.anyQuarterOdds a h with
  | some finalOdds, some anyQuarterOdds =>
    match americanToRawProbability finalOdds with
    | .error e => .error e
    | .ok rawFinal =>
      match americanToRawProbability anyQuarterOdds with
      | .error e => .error e
      | .ok rawAnyQuarter =>
        .ok (finalResultWeight * rawFinal + anyQuarterWeight * rawAnyQuarter)
  | _, _ => .error (.missingOdds a h)

/-- Fail-fast traversal, in order, of a list of fallible computations
(the double digit loop of the source, which throws at the first bad
cell). -/
def exceptMapList {α β : Type} (f : α → Except AnalysisError β) :
    List α → Except AnalysisError (List β)
  | [] => .ok []
  | x :: xs =>
    match f x with
    | .error e => .error e
    | .ok y =>
      match exceptMapList f xs with
      | .error e => .error e
      | .ok ys => .ok (y :: ys)

/-- The blended raw grid, built cell by cell over all 100 digit pairs in
row-major order. -/
def computeCombinedRaw (odds : DraftKingsSquaresOdds)
    (finalResultWeight anyQuarterWeight : ℚ) :
    Except AnalysisError (List (List ℚ)) :=
  exceptMapList
    (fun a => exceptMapList
      (fun h => combinedRawCell odds finalResultWeight anyQuarterWeight a h)
      DIGITS)
    DIGITS

/-- `reduce((sum, value) => sum + value, 0)`. -/
def sumQ (l : List ℚ) : ℚ :=
  l.foldl (· + ·) 0

/-- A probability/EV surface value at a digit pair. -/
def gridAt (g : List (List ℚ)) (a h : Nat) : ℚ :=
  (g.getD a []).getD h 0

/-- `OwnerStat` of `squares-analysis`. -/
structure OwnerStat where
  owner : Str
  numSquares : Nat
  totalEv : ℚ
  evPerSquare : ℚ
  bestSquareEv : ℚ
deriving DecidableEq, Repr

/-- `TopSquare` of `squares-analysis`. -/
structure TopSquare where
  owner : Str
  homeDigit : Int
  awayDigit : Int
  ev : ℚ
  probability : ℚ
deriving DecidableEq, Repr

/-- `SquaresAnalysis` of `squares-analysis`. -/
structure SquaresAnalysis where
  totalPot : ℚ
  sumEv : ℚ
  evByDigit : List (List ℚ)
  combinedProbability : List (List ℚ)
  boardEv : List (List ℚ)
  ownerStats : List OwnerStat
  topSquares : List TopSquare
deriving DecidableEq, Repr

/-- The row-major walk over the board: each cell paired with its board
digits, its trimmed owner, and its probability and EV surface values. -/
def boardCells (board : SquaresBoard)
    (combinedProbability evByDigit : List (List ℚ)) : List TopSquare :=
  (board.awayDigits.zip board.owners).flatMap
    (fun p =>
      (board.homeDigits.zip p.2).map
        (fun q =>
          ⟨jsTrim q.2, q.1, p.1,
           gridAt evByDigit p.1.toNat q.1.toNat,
           gridAt combinedProbability p.1.toNat q.1.toNat⟩))

/-- The running owner totals (total EV, square count, best square EV) in
first-insertion order, as the source's `Map` accumulation produces them.
(The source seeds `bestSquareEv` with negative infinity and immediately
takes `max` with the first EV, so a fresh entry starts at that EV.) -/
def addOwnerCell : List (Str × ℚ × Nat × ℚ) → Str → ℚ →
    List (Str × ℚ × Nat × ℚ)
  | [], owner, ev => [(owner, ev, 1, ev)]
  | (o, t, n, b) :: rest, owner, ev =>
    if o = owner then (o, t + ev, n + 1, max b ev) :: rest
    else (o, t, n, b) :: addOwnerCell rest owner ev

/-- Stable insertion into a descending-ordered list: the element goes in
front of the first strictly smaller key, so equal keys keep their
original relative order — the order any stable descending comparator
sort (the source's `sort((a, b) => b.key - a.key)`) produces. -/
def insertDesc {α : Type} (key : α → ℚ) (x : α) : List α → List α
  | [] => [x]
  | y :: ys => if key y ≤ key x then x :: y :: ys else y :: insertDesc key x ys

/-- Stable descending sort by a rational key. -/
def sortByDesc {α : Type} (key : α → ℚ) : List α → List α
  | [] => []
  | x :: xs => insertDesc key x (sortByDesc key xs)

/-- The normalized probability surface: each blended raw value divided
by the total raw mass. -/
def combinedProbabilityOf (combinedRaw : List (List ℚ)) : List (List ℚ) :=
  combinedRaw.map (fun r => r.map (fun v => v / sumQ combinedRaw.flatten))

/-- The EV surface: each normalized probability times the total pot. -/
def evByDigitOf (combinedRaw : List (List ℚ)) (totalPot : ℚ) : List (List ℚ) :=
  (combinedProbabilityOf combinedRaw).map (fun r => r.map (fun p => p * totalPot))

/-- The EV surface re-indexed into board permutation order via the two
digit axes. -/
def boardEvOf (board : SquaresBoard) (evByDigit : List (List ℚ)) :
    List (List ℚ) :=
  board.awayDigits.map
    (fun ad => board.homeDigits.map
      (fun hd => gridAt evByDigit ad.toNat hd.toNat))

/-- The occupied board cells, in row-major walk order. -/
def occupiedCells (board : SquaresBoard)
    (combinedProbability evByDigit : List (List ℚ)) : List TopSquare :=
  (boardCells board combinedProbability evByDigit).filter
    (fun c => !c.owner.isEmpty)

/-- The success value of `computeSquaresAnalysis`, given the validated
board and the blended raw grid. -/
def analysisFromRaw (board : SquaresBoard) (squarePrice : ℚ)
    (combinedRaw : List (List ℚ)) : SquaresAnalysis :=
  let totalPot := squarePrice * 100
  let combinedProbability := combinedProbabilityOf combinedRaw
  let evByDigit := evByDigitOf combinedRaw totalPot
  let boardEv := boardEvOf board evByDigit
  let occupied := occupiedCells board combinedProbability evByDigit
  let ownerTotals :=
    occupied.foldl (fun t c => addOwnerCell t c.owner c.ev) []
  let ownerStats := sortByDesc OwnerStat.totalEv
    (ownerTotals.map
      (fun e => ⟨e.1, e.2.2.1, e.2.1, e.2.1 / (e.2.2.1 : ℚ), e.2.2.2⟩))
  let topSquares := sortByDesc TopSquare.ev occupied
  ⟨totalPot, sumQ boardEv.flatten, evByDigit, combinedProbability,
    boardEv, ownerStats, topSquares⟩

/-- `computeSquaresAnalysis` of `squares-analysis`: validate the digit
axes and the 10x10 ownership shape, build the blended raw-probability
grid (failing on a missing or zero quotation), check that the total raw
mass is positive, and produce the analysis value. -/
def computeSquaresAnalysis (board : SquaresBoard)
    (odds : DraftKingsSquaresOdds) (squarePrice : ℚ)
    (finalResultWeight : ℚ) (anyQuarterWeight : ℚ) :
    Except AnalysisError SquaresAnalysis :=
  if !isValidDigitArray board.homeDigits then .error .malformedDigitAxis
  else if !isValidDigitArray board.awayDigits then .error .malformedDigitAxis
  else if !(board.owners.length == 10 &&
      board.owners.all (fun row => row.length == 10)) then
    .error .malformedBoardShape
  else
    match computeCombinedRaw odds finalResultWeight anyQuarterWeight with
    | .error e => .error e
    | .ok combinedRaw =>
      if sumQ combinedRaw.flatten ≤ 0 then .error .degenerateProbabilityMass
      else .ok (analysisFromRaw board squarePrice combinedRaw)

/-- A board with natural axes and a fully unclaimed grid (test fixture). -/
def emptyBoard : SquaresBoard :=
  ⟨"H".toList, "A".toList, defaultDigits, defaultDigits,
    List.replicate 10 (List.replicate 10 [])⟩

/-- Both markets quoting the same value at every digit pair (test
fixture for the uniform-odds scenario). -/
def uniformOdds (k : Int) : DraftKingsSquaresOdds :=
  ⟨List.replicate 10 (List.replicate 10 (some k)),
   List.replicate 10 (List.replicate 10 (some k))⟩

/-- The analysis of `emptyBoard` under uniform -110 odds at 3 per
square: every probability 1/100 and every EV 3. -/
def uniformAnalysis : SquaresAnalysis :=
  ⟨300, 300, List.replicate 10 (List.replicate 10 3),
   List.replicate 10 (List.replicate 10 (mkRat 1 100)),
   List.replicate 10 (List.replicate 10 3), [], []⟩

/-- A digit pair is missing when either market has no finite entry for
it (the condition `!Number.isFinite(...)` of the source). -/
def pairMissing (odds : DraftKingsSquaresOdds) (a h : Nat) : Bool :=
  (gridGet odds.finalResultOdds a h).isNone ||
    (gridGet odds.anyQuarterOdds a h).isNone

/-- The first missing home digit of a row, in scan order. -/
def rowFirstMissing (odds : DraftKingsSquaresOdds) (a : Nat) : Option Nat :=
  DIGITS.find? (fun h => pairMissing odds a h)

/-- The first missing digit pair in the row-major scan order of the
source's double loop. -/
def firstMissingPair (odds : DraftKingsSquaresOdds) : Option (Nat × Nat) :=
  match DIGITS.find? (fun a => (rowFirstMissing odds a).isSome) with
  | some a =>
    match rowFirstMissing odds a with
    | some h => some (a, h)
    | none => none
  | none => none

/-- Odds with a zero quotation at (0,0) and a missing entry at (0,1) in
the final-result market (test fixture). -/
def zeroThenMissingOdds : DraftKingsSquaresOdds :=
  ⟨List.replicate 10 (List.replicate 10 (some (-110))),
   ([some 0, none] ++ List.replicate 8 (some (-110))) ::
     List.replicate 9 (List.replicate 10 (some (-110)))⟩

/-- Odds with no zero quotations and one missing entry at (0,1) in the
final-result market (test fixture). -/
def missingPairOdds : DraftKingsSquaresOdds :=
  ⟨List.replicate 10 (List.replicate 10 (some (-110))),
   ([some (-110), none] ++ List.replicate 8 (some (-110))) ::
     List.replicate 9 (List.replicate 10 (some (-110)))⟩

/-- A board with an invalid home axis (test fixture). -/
def badAxisBoard : SquaresBoard :=
  ⟨"H".toList, "A".toList, List.replicate 10 0, defaultDigits,
    List.replicate 10 (List.replicate 10 [])⟩

/-- A board with valid axes but no ownership rows (test fixture). -/
def badShapeBoard : SquaresBoard :=
  ⟨"H".toList, "A".toList, defaultDigits, defaultDigits, []⟩

/-- Label cells for a Scenario C shaped paste (test fixture). -/
def sampleLabels : List Str :=
  ["A", "B", "C", "D", "E", "F", "G", "H", "I", "J"].map String.toList

/-- A fully claimed ownership grid (test fixture). -/
def sampleOwners : List (List Str) :=
  List.replicate 10 (List.replicate 10 "ab".toList)

/-- A Scenario C paste: labels, natural-order header, ten owner rows. -/
def sampleText : Str :=
  pastedGrid sampleLabels defaultDigits sampleOwners

/-- The board `sampleText` parses to. -/
def sampleParsedBoard : SquaresBoard :=
  ⟨"A".toList, "Away Team".toList, defaultDigits, defaultDigits, sampleOwners⟩

/-- Characters that survive the cleaning of `parseRows` untouched
inside a cell: not a separator, not a carriage return, and none of the
characters the cleaner rewrites. -/
def cellCharOk (c : Char) : Bool :=
  !(c = '\t' || c = '\n' || c = '\r' || c = Char.ofNat 160 ||
    c = Char.ofNat 0xFF0C || c = tickChar)

/-- A well-formed pasted ownership cell: safe characters, and either
empty or bounded by non-whitespace characters (interior whitespace is
unrestricted and exercises the whitespace collapsing). -/
def cellOk (cell : Str) : Bool :=
  cell.all cellCharOk &&
    (cell.isEmpty ||
      (!isJsSpace (cell.headD ' ') && !isJsSpace (cell.getLastD ' ')))

/-- A well-formed pasted owner row: ten cells, each well formed, the
last one non-empty (so the pasted line keeps its width when trailing
whitespace is stripped). -/
def rowOk (row : List Str) : Bool :=
  row.length == 10 && row.all cellOk && !(row.getLastD []).isEmpty

/-- A well-formed label cell: non-empty, already normalized, not
digit-like, with safe characters. -/
def labelOk (l : Str) : Bool :=
  !l.isEmpty && decide (normalizeCell l = l) && decide (maybeDigit l = none)
    && l.all cellCharOk

/-- A well-formed label row: ten label cells, the first of which does
not begin with one of the single-character wrappers that
`unwrapTextBlock` strips. -/
def labelsOk (labels : List Str) : Bool :=
  labels.length == 10 && labels.all labelOk &&
    !((labels.headD []).headD ' ' = quoteChar ||
      (labels.headD []).headD ' ' = aposChar ||
      (labels.headD []).headD ' ' = '(' ||
      (labels.headD []).headD ' ' = Char.ofNat 0x201C)

/-- An ownership grid whose first cell is a near-miss spelling of the
configured participant name (counterexample fixture). -/
def cexOwners : List (List Str) :=
  ("Steve".toList :: List.replicate 9 "ab".toList) ::
    List.replicate 9 (List.replicate 10 "ab".toList)

/-- The owner grid `cexOwners` parses to: the near-miss cell is
canonicalized to the display name, every other cell is kept. -/
def cexParsedOwners : List (List Str) :=
  ("Steven".toList :: List.replicate 9 "ab".toList) ::
    List.replicate 9 (List.replicate 10 "ab".toList)

/-! ## Claim theorems -/

/-- C5: `impliedProbability` returns `100 / (a + 100)` for every positive
integer quotation `a`, returns `|a| / (|a| + 100)` for every negative
integer quotation `a`, and fails with `InvalidOdds` exactly when the
quotation is zero. -/
theorem claim_C5_impliedProbability_forms (a : Int) :
    (0 < a → americanToRawProbability a = .ok (100 / ((a : ℚ) + 100))) ∧
    (a < 0 →
      americanToRawProbability a = .ok (|(a : ℚ)| / (|(a : ℚ)| + 100))) ∧
    (americanToRawProbability a = .error .invalidOdds ↔ a = 0) := by
  refine ⟨fun h => ?_, fun h => ?_, ?_, fun h => ?_⟩
  · simp [americanToRawProbability, h]
  · have h1 : ¬ (0 < a) := by omega
    simp [americanToRawProbability, h1, h]
  · intro he
    by_contra hne
    rcases lt_trichotomy a 0 with hlt | heq | hgt
    · have h1 : ¬ (0 < a) := by omega
      simp [americanToRawProbability, h1, hlt] at he
    · exact hne heq
    · simp [americanToRawProbability, hgt] at he
  · have h1 : ¬ (0 < a) := by omega
    have h2 : ¬ (a < 0) := by omega
    simp [americanToRawProbability, h1, h2]

/-- Witness for C5 at the Scenario A quotations +150, -150 and at 0. -/
theorem claim_C5_witness :
    americanToRawProbability 150 = .ok (100 / (((150 : Int) : ℚ) + 100)) ∧
    americanToRawProbability (-150) =
      .ok (|(((-150 : Int)) : ℚ)| / (|(((-150 : Int)) : ℚ)| + 100)) ∧
    americanToRawProbability 0 = .error .invalidOdds :=
  ⟨(claim_C5_impliedProbability_forms 150).1 (by decide),
   (claim_C5_impliedProbability_forms (-150)).2.1 (by decide),
   (claim_C5_impliedProbability_forms 0).2.2.mpr rfl⟩

/-- C9: for every non-zero integer odds quotation, the implied raw
probability is strictly between 0 and 1. -/
theorem claim_C9_probability_in_unit_interval (a : Int) (q : ℚ)
    (ha : a ≠ 0) (h : americanToRawProbability a = .ok q) :
    0 < q ∧ q < 1 := by
  unfold americanToRawProbability at h
  rcases lt_trichotomy a 0 with hlt | heq | hgt
  · have h1 : ¬ (0 < a) := by omega
    rw [if_neg (by simpa using h1), if_pos hlt] at h
    have hq : |(a : ℚ)| / (|(a : ℚ)| + 100) = q := by injection h
    have habs : 0 < |(a : ℚ)| := by
      refine abs_pos.mpr ?_
      exact_mod_cast ha
    constructor
    · rw [← hq]
      exact div_pos habs (by linarith)
    · rw [← hq, div_lt_one (by linarith)]
      linarith
  · exact absurd heq ha
  · rw [if_pos hgt] at h
    have hq : (100 : ℚ) / ((a : ℚ) + 100) = q := by injection h
    have hca : (0 : ℚ) < (a : ℚ) := by exact_mod_cast hgt
    constructor
    · rw [← hq]
      exact div_pos (by norm_num) (by linarith)
    · rw [← hq, div_lt_one (by linarith)]
      linarith

/-- Witness for C9 at the quotation +150. -/
theorem claim_C9_witness : (0 : ℚ) < mkRat 2 5 ∧ mkRat 2 5 < 1 :=
  claim_C9_probability_in_unit_interval 150 (mkRat 2 5) (by decide) (by decide)

/-- C8: `extractBoard` fails with `UnderfilledPastedInput` exactly when
the tokenized input has fewer than ten non-blank rows; the check comes
before the header search, so it fires regardless of the content of the
rows, and no later stage produces this failure. -/
theorem claim_C8_underfilled_input (text : Str) :
    ((parseRows text).length < 10 →
      parseSquaresFromPastedText text = .error .underfilledPastedInput) ∧
    (10 ≤ (parseRows text).length →
      parseSquaresFromPastedText text ≠ .error .underfilledPastedInput) := by
  constructor
  · intro h
    simp [parseSquaresFromPastedText, h]
  · intro h
    have h1 : ¬ ((parseRows text).length < 10) := by omega
    simp only [parseSquaresFromPastedText, if_neg h1]
    split
    · simp
    · simp

/-! ## Toolkit lemmas for the EV aggregator claims -/

theorem foldl_add_eq (l : List ℚ) (a : ℚ) : l.foldl (· + ·) a = a + l.sum := by
  induction l generalizing a with
  | nil => simp
  | cons x t ih => rw [List.foldl_cons, ih, List.sum_cons]; ring

theorem sumQ_eq_sum (l : List ℚ) : sumQ l = l.sum := by
  rw [sumQ, foldl_add_eq, zero_add]

theorem sum_map_div (l : List ℚ) (c : ℚ) :
    (l.map (fun v => v / c)).sum = l.sum / c := by
  induction l with
  | nil => simp
  | cons x t ih => rw [List.map_cons, List.sum_cons, List.sum_cons, ih]; ring

theorem sum_map_mul (l : List ℚ) (c : ℚ) :
    (l.map (fun v => v * c)).sum = l.sum * c := by
  induction l with
  | nil => simp
  | cons x t ih => rw [List.map_cons, List.sum_cons, List.sum_cons, ih]; ring

theorem flatten_map_map {α β : Type} (g : List (List α)) (f : α → β) :
    (g.map (fun r => r.map f)).flatten = g.flatten.map f := by
  induction g with
  | nil => rfl
  | cons r t ih =>
    rw [List.map_cons, List.flatten_cons, List.flatten_cons, List.map_append, ih]

theorem map_getD_range {α : Type} (l : List α) (d : α) :
    (List.range l.length).map (fun i => l.getD i d) = l := by
  induction l with
  | nil => simp
  | cons a t ih =>
    rw [List.length_cons, List.range_succ_eq_map, List.map_cons, List.map_map]
    have h2 : (List.range t.length).map ((fun i => (a :: t).getD i d) ∘ Nat.succ)
        = (List.range t.length).map (fun i => t.getD i d) := by
      apply List.map_congr_left
      intro i _
      rfl
    rw [h2, ih]
    rfl

theorem exceptMapList_forall₂ {α β : Type} (f : α → Except AnalysisError β) :
    ∀ xs ys, exceptMapList f xs = .ok ys →
      List.Forall₂ (fun x y => f x = .ok y) xs ys := by
  intro xs
  induction xs with
  | nil =>
    intro ys h
    simp only [exceptMapList] at h
    injection h with h
    rw [← h]
    exact List.Forall₂.nil
  | cons x t ih =>
    intro ys h
    simp only [exceptMapList] at h
    cases hfx : f x with
    | error e => rw [hfx] at h; simp at h
    | ok y =>
      rw [hfx] at h
      cases ht : exceptMapList f t with
      | error e => rw [ht] at h; simp at h
      | ok ys' =>
        rw [ht] at h
        simp only [] at h
        injection h with h
        rw [← h]
        exact List.Forall₂.cons hfx (ih ys' ht)

theorem exceptMapList_const {α β : Type} (f : α → Except AnalysisError β)
    (c : β) :
    ∀ xs, (∀ x ∈ xs, f x = .ok c) →
      exceptMapList f xs = .ok (xs.map (fun _ => c)) := by
  intro xs
  induction xs with
  | nil => intro _; simp [exceptMapList]
  | cons x t ih =>
    intro h
    have hx : f x = .ok c := h x (List.mem_cons_self x t)
    have ht := ih (fun y hy => h y (List.mem_cons_of_mem x hy))
    simp only [exceptMapList, hx, ht, List.map_cons]

theorem exceptMapList_error_mem {α β : Type} (f : α → Except AnalysisError β)
    (e : AnalysisError) :
    ∀ xs, exceptMapList f xs = .error e → ∃ x ∈ xs, f x = .error e := by
  intro xs
  induction xs with
  | nil => intro h; simp [exceptMapList] at h
  | cons x t ih =>
    intro h
    simp only [exceptMapList] at h
    cases hfx : f x with
    | error e' =>
      rw [hfx] at h
      simp only [] at h
      injection h with h
      exact ⟨x, List.mem_cons_self x t, by rw [hfx, h]⟩
    | ok y =>
      rw [hfx] at h
      cases ht : exceptMapList f t with
      | error e' =>
        rw [ht] at h
        simp only [] at h
        injection h with h
        obtain ⟨z, hz, hfz⟩ := ih (by rw [ht, h])
        exact ⟨z, List.mem_cons_of_mem x hz, hfz⟩
      | ok ys' => rw [ht] at h; simp at h

theorem getD_replicate_lt {α : Type} (n : Nat) (x d : α) (i : Nat) (h : i < n) :
    (List.replicate n x).getD i d = x := by
  induction n generalizing i with
  | zero => omega
  | succ m ih =>
    cases i with
    | zero => rfl
    | succ j =>
      rw [List.replicate_succ, List.getD_cons_succ]
      exact ih j (by omega)

theorem isValidDigitArray_unpack (d : List Int)
    (hd : isValidDigitArray d = true) :
    d.length = 10 ∧ d.dedup.length = 10 ∧ ∀ x ∈ d, 0 ≤ x ∧ x ≤ 9 := by
  simp only [isValidDigitArray, Bool.and_eq_true, beq_iff_eq, List.all_eq_true,
    decide_eq_true_eq] at hd
  tauto

theorem validDigits_toNat_perm (d : List Int)
    (hd : isValidDigitArray d = true) :
    (d.map Int.toNat).Perm (List.range 10) := by
  obtain ⟨hlen, hded, hbound⟩ := isValidDigitArray_unpack d hd
  have hnd : d.Nodup := by
    have he : d.dedup = d :=
      (List.dedup_sublist d).eq_of_length (by rw [hded, hlen])
    rw [← he]
    exact List.nodup_dedup d
  have hmnd : (d.map Int.toNat).Nodup := by
    refine List.Nodup.map_on ?_ hnd
    intro x hx y hy hxy
    rw [← Int.toNat_of_nonneg (hbound x hx).1,
      ← Int.toNat_of_nonneg (hbound y hy).1, hxy]
  have hsub : (d.map Int.toNat) ⊆ List.range 10 := by
    intro n hn
    obtain ⟨x, hx, hxe⟩ := List.mem_map.mp hn
    have h9 : x.toNat ≤ 9 := Int.toNat_le.mpr (by exact_mod_cast (hbound x hx).2)
    rw [List.mem_range, ← hxe]
    omega
  exact (hmnd.subperm hsub).perm_of_length_le (by simp [hlen])

theorem sum_map_validDigits (d : List Int)
    (hd : isValidDigitArray d = true) (f : Nat → ℚ) :
    (d.map (fun x => f x.toNat)).sum = ((List.range 10).map f).sum := by
  have hp := (validDigits_toNat_perm d hd).map f
  have he : (d.map Int.toNat).map f = d.map (fun x => f x.toNat) := by
    rw [List.map_map]
    rfl
  rw [← he]
  exact hp.sum_eq

theorem sum_range_getD (r : List ℚ) (hr : r.length = 10) :
    ((List.range 10).map (fun h => r.getD h 0)).sum = r.sum := by
  rw [← hr, map_getD_range]

theorem sum_grid (g : List (List ℚ)) (hg : g.length = 10)
    (hr : ∀ r ∈ g, r.length = 10) :
    ((List.range 10).map
      (fun a => ((List.range 10).map (fun h => gridAt g a h)).sum)).sum
      = g.flatten.sum := by
  have h0 : (List.range 10).map (fun a => g.getD a []) = g := by
    rw [← hg, map_getD_range]
  have h1 : (List.range 10).map
      (fun a => ((List.range 10).map (fun h => gridAt g a h)).sum)
      = g.map (fun r => ((List.range 10).map (fun h => r.getD h 0)).sum) := by
    rw [← h0, List.map_map]
    rfl
  rw [h1]
  have h2 : g.map (fun r => ((List.range 10).map (fun h => r.getD h 0)).sum)
      = g.map List.sum := by
    apply List.map_congr_left
    intro r hrr
    exact sum_range_getD r (hr r hrr)
  rw [h2, ← List.sum_flatten]

theorem sum_boardEvOf (board : SquaresBoard) (E : List (List ℚ))
    (hhome : isValidDigitArray board.homeDigits = true)
    (haway : isValidDigitArray board.awayDigits = true)
    (hlen : E.length = 10) (hrow : ∀ r ∈ E, r.length = 10) :
    (boardEvOf board E).flatten.sum = E.flatten.sum := by
  unfold boardEvOf
  rw [List.sum_flatten, List.map_map]
  have h1 : board.awayDigits.map
      (List.sum ∘ fun ad => board.homeDigits.map
        (fun hd => gridAt E ad.toNat hd.toNat))
      = board.awayDigits.map
        (fun ad => ((List.range 10).map (fun h => gridAt E ad.toNat h)).sum) := by
    apply List.map_congr_left
    intro ad _
    exact sum_map_validDigits board.homeDigits hhome
      (fun h => gridAt E ad.toNat h)
  rw [h1,
    sum_map_validDigits board.awayDigits haway
      (fun a => ((List.range 10).map (fun h => gridAt E a h)).sum),
    sum_grid E hlen hrow]

theorem computeCombinedRaw_ok_shape (odds : DraftKingsSquaresOdds)
    (wF wQ : ℚ) (cr : List (List ℚ))
    (h : computeCombinedRaw odds wF wQ = .ok cr) :
    cr.length = 10 ∧ ∀ r ∈ cr, r.length = 10 := by
  have hf := exceptMapList_forall₂ _ DIGITS cr h
  refine ⟨by rw [← hf.length_eq]; rfl, ?_⟩
  intro r hr
  obtain ⟨⟨i, hi⟩, hg⟩ := List.mem_iff_get.mp hr
  obtain ⟨hlen2, hget⟩ := List.forall₂_iff_get.mp hf
  have hi1 : i < DIGITS.length := by rw [hlen2]; exact hi
  have hcell := hget i hi1 hi
  have hf2 := exceptMapList_forall₂ _ DIGITS _ hcell
  rw [← hg, ← hf2.length_eq]
  rfl

theorem computeSquaresAnalysis_ok_inv (board : SquaresBoard)
    (odds : DraftKingsSquaresOdds) (p wF wQ : ℚ) (res : SquaresAnalysis)
    (h : computeSquaresAnalysis board odds p wF wQ = .ok res) :
    isValidDigitArray board.homeDigits = true ∧
    isValidDigitArray board.awayDigits = true ∧
    board.owners.length = 10 ∧ (∀ r ∈ board.owners, r.length = 10) ∧
    ∃ cr, computeCombinedRaw odds wF wQ = .ok cr ∧
      ¬ sumQ cr.flatten ≤ 0 ∧ res = analysisFromRaw board p cr := by
  unfold computeSquaresAnalysis at h
  cases h1 : isValidDigitArray board.homeDigits with
  | false => rw [h1] at h; simp at h
  | true =>
    rw [h1] at h
    cases h2 : isValidDigitArray board.awayDigits with
    | false => rw [h2] at h; simp at h
    | true =>
      rw [h2] at h
      cases h3 : (board.owners.length == 10 &&
          board.owners.all (fun row => row.length == 10)) with
      | false => rw [h3] at h; simp at h
      | true =>
        rw [h3] at h
        simp only [Bool.not_true, Bool.false_eq_true, if_false] at h
        have h3' := h3
        simp only [Bool.and_eq_true, beq_iff_eq, List.all_eq_true] at h3'
        cases hcr : computeCombinedRaw odds wF wQ with
        | error e => rw [hcr] at h; simp at h
        | ok cr =>
          rw [hcr] at h
          simp only [] at h
          by_cases h4 : sumQ cr.flatten ≤ 0
          · rw [if_pos h4] at h; simp at h
          · rw [if_neg h4] at h
            refine ⟨rfl, rfl, h3'.1, h3'.2, cr, rfl, h4, ?_⟩
            injection h with h
            rw [h]

/-- C1: for every input accepted by `computeAnalysis`, the 100
normalized probabilities sum to 1 within tolerance 1e-9, `sumEv` equals
the sum of all 100 `boardEv` entries, and `sumEv` approximates
`totalPool = pricePerSquare * 100` within the same tolerance (over the
exact rational arithmetic the floating-point computation approximates,
the sums are exact). -/
theorem claim_C1_normalized_sums (board : SquaresBoard)
    (odds : DraftKingsSquaresOdds) (p wF wQ : ℚ) (res : SquaresAnalysis)
    (h : computeSquaresAnalysis board odds p wF wQ = .ok res) :
    |res.combinedProbability.flatten.sum - 1| ≤ 1 / 1000000000 ∧
    res.sumEv = res.boardEv.flatten.sum ∧
    res.totalPot = p * 100 ∧
    |res.sumEv - res.totalPot| ≤ 1 / 1000000000 := by
  obtain ⟨hh, ha, _, _, cr, hcr, hZ, hres⟩ :=
    computeSquaresAnalysis_ok_inv board odds p wF wQ res h
  obtain ⟨hcl, hcrow⟩ := computeCombinedRaw_ok_shape odds wF wQ cr hcr
  have hZ0 : sumQ cr.flatten ≠ 0 := fun he => hZ (le_of_eq he)
  have hPsum : (combinedProbabilityOf cr).flatten.sum = 1 := by
    unfold combinedProbabilityOf
    rw [flatten_map_map, sum_map_div, ← sumQ_eq_sum, div_self hZ0]
  have hEsum : (evByDigitOf cr (p * 100)).flatten.sum = p * 100 := by
    unfold evByDigitOf
    rw [flatten_map_map, sum_map_mul, hPsum, one_mul]
  have hEl : (evByDigitOf cr (p * 100)).length = 10 := by
    unfold evByDigitOf combinedProbabilityOf
    rw [List.length_map, List.length_map, hcl]
  have hErow : ∀ r ∈ evByDigitOf cr (p * 100), r.length = 10 := by
    intro r hr
    unfold evByDigitOf combinedProbabilityOf at hr
    rw [List.map_map] at hr
    obtain ⟨r1, hr1, he1⟩ := List.mem_map.mp hr
    rw [← he1]
    simp only [Function.comp]
    rw [List.length_map, List.length_map]
    exact hcrow r1 hr1
  have hBsum : (boardEvOf board (evByDigitOf cr (p * 100))).flatten.sum
      = p * 100 := by
    rw [sum_boardEvOf board _ hh ha hEl hErow, hEsum]
  subst hres
  have hfP : (analysisFromRaw board p cr).combinedProbability
      = combinedProbabilityOf cr := rfl
  have hfB : (analysisFromRaw board p cr).boardEv
      = boardEvOf board (evByDigitOf cr (p * 100)) := rfl
  have hfS : (analysisFromRaw board p cr).sumEv
      = sumQ (boardEvOf board (evByDigitOf cr (p * 100))).flatten := rfl
  have hfT : (analysisFromRaw board p cr).totalPot = p * 100 := rfl
  refine ⟨?_, ?_, hfT, ?_⟩
  · rw [hfP, hPsum]
    norm_num
  · rw [hfS, hfB, sumQ_eq_sum]
  · rw [hfS, hfT, sumQ_eq_sum, hBsum]
    norm_num

/-- Witness for C1: the uniform -110 board at 3 per square. -/
theorem claim_C1_witness :
    |uniformAnalysis.combinedProbability.flatten.sum - 1| ≤ 1 / 1000000000 ∧
    uniformAnalysis.sumEv = uniformAnalysis.boardEv.flatten.sum ∧
    uniformAnalysis.totalPot = 3 * 100 ∧
    |uniformAnalysis.sumEv - uniformAnalysis.totalPot| ≤ 1 / 1000000000 :=
  claim_C1_normalized_sums emptyBoard (uniformOdds (-110)) 3 (8 / 10) (2 / 10)
    uniformAnalysis (by decide)

theorem rawProbability_ok (a : Int) (ha : a ≠ 0) :
    ∃ q, americanToRawProbability a = .ok q ∧ 0 < q := by
  rcases lt_trichotomy a 0 with hlt | heq | hgt
  · have h1 : ¬ (0 < a) := by omega
    refine ⟨|(a : ℚ)| / (|(a : ℚ)| + 100), ?_, ?_⟩
    · simp [americanToRawProbability, h1, hlt]
    · have habs : 0 < |(a : ℚ)| := abs_pos.mpr (by exact_mod_cast ha)
      exact div_pos habs (by linarith)
  · exact absurd heq ha
  · refine ⟨100 / ((a : ℚ) + 100), by simp [americanToRawProbability, hgt], ?_⟩
    have hca : (0 : ℚ) < (a : ℚ) := by exact_mod_cast hgt
    exact div_pos (by norm_num) (by linarith)

theorem combinedRawCell_uniform (odds : DraftKingsSquaresOdds) (k : Int)
    (r wF wQ : ℚ) (a h : Nat)
    (hfa : gridGet odds.finalResultOdds a h = some k)
    (hqa : gridGet odds.anyQuarterOdds a h = some k)
    (hr : americanToRawProbability k = .ok r) :
    combinedRawCell odds wF wQ a h = .ok (wF * r + wQ * r) := by
  unfold combinedRawCell
  rw [hfa, hqa]
  simp only []
  rw [hr]

theorem computeCombinedRaw_uniform (odds : DraftKingsSquaresOdds) (k : Int)
    (r wF wQ : ℚ) (hr : americanToRawProbability k = .ok r)
    (huni : ∀ a, a < 10 → ∀ h, h < 10 →
      gridGet odds.finalResultOdds a h = some k ∧
      gridGet odds.anyQuarterOdds a h = some k) :
    computeCombinedRaw odds wF wQ =
      .ok (DIGITS.map (fun _ => DIGITS.map (fun _ => wF * r + wQ * r))) := by
  unfold computeCombinedRaw
  have hmem : ∀ a ∈ DIGITS, a < 10 := by decide
  refine exceptMapList_const _ _ DIGITS (fun a hma => ?_)
  refine exceptMapList_const _ _ DIGITS (fun h hmh => ?_)
  exact combinedRawCell_uniform odds k r wF wQ a h
    (huni a (hmem a hma) h (hmem h hmh)).1
    (huni a (hmem a hma) h (hmem h hmh)).2 hr

theorem gridAt_const (v : ℚ) (a h : Nat) (ha : a < 10) (hh : h < 10) :
    gridAt (DIGITS.map (fun _ => DIGITS.map (fun _ => v))) a h = v := by
  unfold gridAt
  rw [List.map_const', List.map_const']
  have h10 : DIGITS.length = 10 := rfl
  rw [h10, getD_replicate_lt 10 _ _ a ha, getD_replicate_lt 10 _ _ h hh]

theorem sum_uniform_grid (v : ℚ) :
    sumQ (DIGITS.map (fun _ => DIGITS.map (fun _ => v))).flatten = 100 * v := by
  rw [sumQ_eq_sum, List.map_const', List.map_const']
  have h10 : DIGITS.length = 10 := rfl
  rw [h10, List.sum_flatten, List.map_replicate, List.sum_replicate,
    List.sum_replicate, smul_smul, nsmul_eq_mul]
  norm_num

/-- C7: when every entry of both odds matrices is the same non-zero
integer, `computeAnalysis` with blend weights 0.8 and 0.2 succeeds on
any valid board and yields a normalized probability of exactly 1/100
and an EV of exactly `0.01 * pricePerSquare * 100` at every digit pair,
regardless of the ownership grid. -/
theorem claim_C7_uniform_odds (board : SquaresBoard)
    (odds : DraftKingsSquaresOdds) (k : Int) (p : ℚ) (hk : k ≠ 0)
    (huni : ∀ a, a < 10 → ∀ h, h < 10 →
      gridGet odds.finalResultOdds a h = some k ∧
      gridGet odds.anyQuarterOdds a h = some k) :
    (isValidDigitArray board.homeDigits = true →
      isValidDigitArray board.awayDigits = true →
      (board.owners.length == 10 &&
        board.owners.all (fun row => row.length == 10)) = true →
      (computeSquaresAnalysis board odds p (8 / 10) (2 / 10)).isOk = true) ∧
    (∀ res, computeSquaresAnalysis board odds p (8 / 10) (2 / 10) = .ok res →
      ∀ a, a < 10 → ∀ h, h < 10 →
        gridAt res.combinedProbability a h = 1 / 100 ∧
        gridAt res.evByDigit a h = 1 / 100 * (p * 100)) := by
  obtain ⟨r, hr, hrpos⟩ := rawProbability_ok k hk
  have hcru := computeCombinedRaw_uniform odds k r (8 / 10) (2 / 10) hr huni
  set c : ℚ := (8 : ℚ) / 10 * r + (2 : ℚ) / 10 * r with hc
  have hcr2 : c = r := by rw [hc]; ring
  have hcpos : 0 < c := by rw [hcr2]; exact hrpos
  have hZ : sumQ (DIGITS.map (fun _ => DIGITS.map (fun _ => c))).flatten
      = 100 * c := sum_uniform_grid c
  have hZpos : 0 < sumQ (DIGITS.map (fun _ => DIGITS.map (fun _ => c))).flatten := by
    rw [hZ]
    linarith
  have hcell : c / (100 * c) = 1 / 100 := by
    have hcne : c ≠ 0 := ne_of_gt hcpos
    field_simp
    ring
  have hPu : combinedProbabilityOf (DIGITS.map (fun _ => DIGITS.map (fun _ => c)))
      = DIGITS.map (fun _ => DIGITS.map (fun _ => c / (100 * c))) := by
    unfold combinedProbabilityOf
    rw [hZ, List.map_map]
    apply List.map_congr_left
    intro x _
    simp only [Function.comp_apply]
    rw [List.map_map]
    rfl
  have hEu : evByDigitOf (DIGITS.map (fun _ => DIGITS.map (fun _ => c))) (p * 100)
      = DIGITS.map (fun _ => DIGITS.map (fun _ => c / (100 * c) * (p * 100))) := by
    unfold evByDigitOf
    rw [hPu, List.map_map]
    apply List.map_congr_left
    intro x _
    simp only [Function.comp_apply]
    rw [List.map_map]
    rfl
  constructor
  · intro hb1 hb2 hb3
    unfold computeSquaresAnalysis
    rw [hb1, hb2, hb3]
    simp only [Bool.not_true, Bool.false_eq_true, if_false]
    rw [hcru]
    simp only []
    rw [if_neg (not_le.mpr hZpos)]
    rfl
  · intro res hres a ha h hh
    obtain ⟨_, _, _, _, cr, hcr, _, hres2⟩ :=
      computeSquaresAnalysis_ok_inv board odds p (8 / 10) (2 / 10) res hres
    have hcreq : cr = DIGITS.map (fun _ => DIGITS.map (fun _ => c)) := by
      have h2 := hcr.symm.trans hcru
      injection h2
    subst hres2
    subst hcreq
    constructor
    · have hf : (analysisFromRaw board p
          (DIGITS.map (fun _ => DIGITS.map (fun _ => c)))).combinedProbability
          = combinedProbabilityOf (DIGITS.map (fun _ => DIGITS.map (fun _ => c))) :=
        rfl
      rw [hf, hPu, gridAt_const _ a h ha hh, hcell]
    · have hf : (analysisFromRaw board p
          (DIGITS.map (fun _ => DIGITS.map (fun _ => c)))).evByDigit
          = evByDigitOf (DIGITS.map (fun _ => DIGITS.map (fun _ => c))) (p * 100) :=
        rfl
      rw [hf, hEu, gridAt_const _ a h ha hh, hcell]

/-- Witness for C7: uniform -110 odds on the empty board at 3 per
square, checked at the digit pair (3, 7). -/
theorem claim_C7_witness :
    gridAt uniformAnalysis.combinedProbability 3 7 = 1 / 100 ∧
    gridAt uniformAnalysis.evByDigit 3 7 = 1 / 100 * (3 * 100) :=
  (claim_C7_uniform_odds emptyBoard (uniformOdds (-110)) (-110) 3 (by decide)
    (by decide)).2 uniformAnalysis (by decide) 3 (by decide) 7 (by decide)

theorem extractDigitsGo_valid :
    ∀ (cells : List Str) (start s : Nat) (ds : List Int),
      extractDigitsGo start cells = some (s, ds) →
      isValidDigitArray ds = true := by
  intro cells
  induction cells with
  | nil => intro start s ds h; simp [extractDigitsGo] at h
  | cons c rest ih =>
    intro start s ds h
    simp only [extractDigitsGo] at h
    by_cases h1 : (c :: rest).length < 10
    · rw [if_pos h1] at h
      simp at h
    · rw [if_neg h1] at h
      by_cases h2 :
          ((((c :: rest).take 10).map maybeDigit).all Option.isSome) = true
      · rw [if_pos h2] at h
        by_cases h3 : isValidDigitArray
            (((c :: rest).take 10).map maybeDigit).reduceOption = true
        · rw [if_pos h3] at h
          injection h with h
          cases h
          exact h3
        · rw [if_neg h3] at h
          exact ih (start + 1) s ds h
      · rw [if_neg h2] at h
        exact ih (start + 1) s ds h

theorem findHeaderGo_valid :
    ∀ (rows : List (List Str)) (i j s : Nat) (ds : List Int),
      findHeaderGo i rows = some (j, s, ds) →
      isValidDigitArray ds = true := by
  intro rows
  induction rows with
  | nil => intro i j s ds h; simp [findHeaderGo] at h
  | cons row rest ih =>
    intro i j s ds h
    simp only [findHeaderGo] at h
    cases hx : extractDigitsFromRow row with
    | some p =>
      rw [hx] at h
      simp only [] at h
      injection h with h
      injection h with h1 h2
      injection h2 with h3 h4
      subst h4
      exact extractDigitsGo_valid row 0 p.1 p.2 hx
    | none =>
      rw [hx] at h
      exact ih (i + 1) j s ds h

theorem collectOwnersGo_rows (startCol : Nat) :
    ∀ (rows : List (List Str)) (acc : List (List Str) × List (Option Int)),
      (∀ r ∈ acc.1, r.length = 10) →
      ∀ r ∈ (collectOwnersGo startCol rows acc).1, r.length = 10 := by
  intro rows
  induction rows with
  | nil => intro acc hacc r hr; exact hacc r hr
  | cons row rest ih =>
    intro acc hacc r hr
    simp only [collectOwnersGo] at hr
    by_cases h1 : row.length < startCol + 10
    · rw [if_pos h1] at hr
      exact ih acc hacc r hr
    · rw [if_neg h1] at hr
      by_cases h2 : (((row.drop startCol).take 10).all List.isEmpty) = true
      · rw [if_pos h2] at hr
        exact ih acc hacc r hr
      · rw [if_neg h2] at hr
        have hslice : (((row.drop startCol).take 10).map normalizeOwnerName).length
            = 10 := by
          rw [List.length_map, List.length_take, List.length_drop]
          omega
        have hext : ∀ r' ∈ acc.1 ++
            [((row.drop startCol).take 10).map normalizeOwnerName],
            r'.length = 10 := by
          intro r' hr'
          rcases List.mem_append.mp hr' with hm | hm
          · exact hacc r' hm
          · rw [List.mem_singleton.mp hm]
            exact hslice
        by_cases h3 : (acc.1 ++
            [((row.drop startCol).take 10).map normalizeOwnerName]).length = 10
        · rw [if_pos h3] at hr
          exact hext r hr
        · rw [if_neg h3] at hr
          exact ih _ hext r hr

set_option maxHeartbeats 2000000 in
theorem parseSquaresFromPastedText_ok_inv (text : Str) (board : SquaresBoard)
    (h : parseSquaresFromPastedText text = .ok board) :
    10 ≤ (parseRows text).length ∧
    (parseCollected (parseRows text)).1.length = 10 ∧
    board.homeDigits = parseHomeDigits (parseRows text) ∧
    board.owners = (parseCollected (parseRows text)).1 ∧
    board.homeTeam = parseHomeTeam (parseRows text) ∧
    board.awayTeam = parseAwayTeam (parseRows text) ∧
    ((isValidDigitArray (awayDigitsResolve
        (parseCollected (parseRows text)).2) = true ∧
      board.awayDigits =
        awayDigitsResolve (parseCollected (parseRows text)).2) ∨
     (isValidDigitArray (awayDigitsResolve
        (parseCollected (parseRows text)).2) ≠ true ∧
      board.awayDigits = defaultDigits)) := by
  unfold parseSquaresFromPastedText at h
  by_cases h1 : (parseRows text).length < 10
  · rw [if_pos h1] at h
    simp at h
  · rw [if_neg h1] at h
    by_cases h2 : (parseCollected (parseRows text)).1.length ≠ 10
    · rw [if_pos h2] at h
      simp at h
    · rw [if_neg h2] at h
      by_cases hv : isValidDigitArray
          (awayDigitsResolve (parseCollected (parseRows text)).2) = true
      · rw [if_pos hv] at h
        injection h with h
        rw [← h]
        exact ⟨by omega, by omega, rfl, rfl, rfl, rfl, Or.inl ⟨hv, rfl⟩⟩
      · rw [if_neg hv] at h
        injection h with h
        rw [← h]
        exact ⟨by omega, by omega, rfl, rfl, rfl, rfl, Or.inr ⟨hv, rfl⟩⟩

theorem parse_ok_valid_axes (text : Str) (board : SquaresBoard)
    (h : parseSquaresFromPastedText text = .ok board) :
    isValidDigitArray board.homeDigits = true ∧
    isValidDigitArray board.awayDigits = true := by
  obtain ⟨-, -, hhd, -, -, -, haw⟩ :=
    parseSquaresFromPastedText_ok_inv text board h
  constructor
  · rw [hhd]
    unfold parseHomeDigits
    cases hx : findHeader (parseRows text) with
    | some p =>
      exact findHeaderGo_valid (parseRows text) 0 p.1 p.2.1 p.2.2 hx
    | none => decide
  · rcases haw with ⟨hv, he⟩ | ⟨hv, he⟩
    · rw [he]
      exact hv
    · rw [he]
      decide

theorem parse_ok_owner_shape (text : Str) (board : SquaresBoard)
    (h : parseSquaresFromPastedText text = .ok board) :
    board.owners.length = 10 ∧ ∀ r ∈ board.owners, r.length = 10 := by
  obtain ⟨-, hlen, -, hown, -, -, -⟩ :=
    parseSquaresFromPastedText_ok_inv text board h
  rw [hown]
  refine ⟨hlen, ?_⟩
  unfold parseCollected
  exact collectOwnersGo_rows _ _ ([], []) (by intro r hr; simp at hr)

theorem americanToRawProbability_error (a : Int) (e : AnalysisError)
    (h : americanToRawProbability a = .error e) : e = .invalidOdds := by
  unfold americanToRawProbability at h
  by_cases h1 : 0 < a
  · rw [if_pos h1] at h
    simp at h
  · rw [if_neg h1] at h
    by_cases h2 : a < 0
    · rw [if_pos h2] at h
      simp at h
    · rw [if_neg h2] at h
      injection h with h
      exact h.symm

theorem combinedRawCell_error (odds : DraftKingsSquaresOdds) (wF wQ : ℚ)
    (a h : Nat) (e : AnalysisError)
    (he : combinedRawCell odds wF wQ a h = .error e) :
    e = .missingOdds a h ∨ e = .invalidOdds := by
  unfold combinedRawCell at he
  cases hf : gridGet odds.finalResultOdds a h with
  | none =>
    rw [hf] at he
    simp only [] at he
    injection he with he
    exact Or.inl he.symm
  | some kf =>
    rw [hf] at he
    cases hq : gridGet odds.anyQuarterOdds a h with
    | none =>
      rw [hq] at he
      simp only [] at he
      injection he with he
      exact Or.inl he.symm
    | some kq =>
      rw [hq] at he
      simp only [] at he
      cases hrf : americanToRawProbability kf with
      | error e1 =>
        rw [hrf] at he
        simp only [] at he
        injection he with he
        exact Or.inr (he ▸ americanToRawProbability_error kf e1 hrf)
      | ok r1 =>
        rw [hrf] at he
        simp only [] at he
        cases hrq : americanToRawProbability kq with
        | error e2 =>
          rw [hrq] at he
          simp only [] at he
          injection he with he
          exact Or.inr (he ▸ americanToRawProbability_error kq e2 hrq)
        | ok r2 =>
          rw [hrq] at he
          simp at he

theorem computeCombinedRaw_error (odds : DraftKingsSquaresOdds) (wF wQ : ℚ)
    (e : AnalysisError) (h : computeCombinedRaw odds wF wQ = .error e) :
    (∃ a hh, e = .missingOdds a hh) ∨ e = .invalidOdds := by
  obtain ⟨a, -, ha⟩ := exceptMapList_error_mem _ e DIGITS h
  obtain ⟨hcell, -, hc⟩ := exceptMapList_error_mem _ e DIGITS ha
  rcases combinedRawCell_error odds wF wQ a hcell e hc with h1 | h1
  · exact Or.inl ⟨a, hcell, h1⟩
  · exact Or.inr h1

/-- C6: every extracted digit axis is a valid permutation of 0-9: a
candidate header window with a repeated digit is never accepted (the
window must pass `isValidDigitArray`), and when the collected away-digit
sequence is not a valid permutation the board silently falls back to the
natural order 0-9 while still succeeding. -/
theorem claim_C6_digit_axis_invariants :
    (∀ cells s ds, extractDigitsFromRow cells = some (s, ds) →
      isValidDigitArray ds = true) ∧
    (∀ text board, parseSquaresFromPastedText text = .ok board →
      isValidDigitArray board.homeDigits = true ∧
      isValidDigitArray board.awayDigits = true ∧
      (isValidDigitArray (awayDigitsResolve
          (parseCollected (parseRows text)).2) ≠ true →
        board.awayDigits = defaultDigits)) := by
  constructor
  · intro cells s ds h
    exact extractDigitsGo_valid cells 0 s ds h
  · intro text board h
    obtain ⟨hv1, hv2⟩ := parse_ok_valid_axes text board h
    refine ⟨hv1, hv2, ?_⟩
    intro hnv
    obtain ⟨-, -, -, -, -, -, haw⟩ :=
      parseSquaresFromPastedText_ok_inv text board h
    rcases haw with ⟨hva, -⟩ | ⟨-, he⟩
    · exact absurd hva hnv
    · exact he

/-- Witness for C6: the natural-order header row is accepted, and the
Scenario C paste yields valid axes. -/
theorem claim_C6_witness :
    isValidDigitArray defaultDigits = true ∧
    isValidDigitArray sampleParsedBoard.homeDigits = true ∧
    isValidDigitArray sampleParsedBoard.awayDigits = true :=
  ⟨claim_C6_digit_axis_invariants.1 (defaultDigits.map digitCell) 0
      defaultDigits (by decide),
   (claim_C6_digit_axis_invariants.2 sampleText sampleParsedBoard (by decide)).1,
   (claim_C6_digit_axis_invariants.2 sampleText sampleParsedBoard (by decide)).2.1⟩

/-- C10: every successfully extracted board has a 10x10 ownership grid,
and feeding it to `computeSquaresAnalysis` can never produce the
malformed-axis or malformed-shape failures. -/
theorem claim_C10_parsed_board_compute_safe (text : Str)
    (board : SquaresBoard)
    (h : parseSquaresFromPastedText text = .ok board) :
    board.owners.length = 10 ∧ (∀ r ∈ board.owners, r.length = 10) ∧
    ∀ odds p wF wQ,
      computeSquaresAnalysis board odds p wF wQ ≠
        .error .malformedDigitAxis ∧
      computeSquaresAnalysis board odds p wF wQ ≠
        .error .malformedBoardShape := by
  obtain ⟨hlen, hrow⟩ := parse_ok_owner_shape text board h
  obtain ⟨hv1, hv2⟩ := parse_ok_valid_axes text board h
  refine ⟨hlen, hrow, ?_⟩
  intro odds p wF wQ
  have h3 : (board.owners.length == 10 &&
      board.owners.all (fun row => row.length == 10)) = true := by
    rw [Bool.and_eq_true]
    refine ⟨beq_iff_eq.mpr hlen, ?_⟩
    rw [List.all_eq_true]
    intro r hr
    exact beq_iff_eq.mpr (hrow r hr)
  unfold computeSquaresAnalysis
  rw [hv1, hv2, h3]
  simp only [Bool.not_true, Bool.false_eq_true, if_false]
  cases hcr : computeCombinedRaw odds wF wQ with
  | error e =>
    simp only []
    rcases computeCombinedRaw_error odds wF wQ e hcr with ⟨a, hh', he⟩ | he <;>
      subst he <;> exact ⟨by simp, by simp⟩
  | ok cr =>
    simp only []
    by_cases hz : sumQ cr.flatten ≤ 0
    · rw [if_pos hz]
      exact ⟨by simp, by simp⟩
    · rw [if_neg hz]
      exact ⟨by simp, by simp⟩

/-- Witness for C10: the Scenario C paste with uniform odds. -/
theorem claim_C10_witness :
    sampleParsedBoard.owners.length = 10 ∧
    computeSquaresAnalysis sampleParsedBoard (uniformOdds (-110)) 3 (8 / 10)
        (2 / 10) ≠ .error .malformedDigitAxis ∧
    computeSquaresAnalysis sampleParsedBoard (uniformOdds (-110)) 3 (8 / 10)
        (2 / 10) ≠ .error .malformedBoardShape :=
  ⟨(claim_C10_parsed_board_compute_safe sampleText sampleParsedBoard
      (by decide)).1,
   ((claim_C10_parsed_board_compute_safe sampleText sampleParsedBoard
      (by decide)).2.2 (uniformOdds (-110)) 3 (8 / 10) (2 / 10)).1,
   ((claim_C10_parsed_board_compute_safe sampleText sampleParsedBoard
      (by decide)).2.2 (uniformOdds (-110)) 3 (8 / 10) (2 / 10)).2⟩

theorem exceptMapList_find_error {α β : Type} (f : α → Except AnalysisError β)
    (p : α → Bool) (E : α → AnalysisError) :
    ∀ xs : List α,
      (∀ x ∈ xs, (p x = true → f x = .error (E x)) ∧
        (p x = false → ∃ c, f x = .ok c)) →
      ((xs.find? p = none → ∃ ys, exceptMapList f xs = .ok ys) ∧
       (∀ x₀, xs.find? p = some x₀ → exceptMapList f xs = .error (E x₀))) := by
  intro xs
  induction xs with
  | nil =>
    intro _
    exact ⟨fun _ => ⟨[], rfl⟩, fun x₀ hx => by simp [List.find?] at hx⟩
  | cons x t ih =>
    intro hd
    have hx := hd x (List.mem_cons_self x t)
    have iht := ih (fun y hy => hd y (List.mem_cons_of_mem x hy))
    cases hp : p x with
    | true =>
      have hfx := hx.1 hp
      constructor
      · intro hn
        rw [List.find?_cons_of_pos _ hp] at hn
        simp at hn
      · intro x₀ hf
        rw [List.find?_cons_of_pos _ hp] at hf
        injection hf with hf
        subst hf
        simp only [exceptMapList, hfx]
    | false =>
      obtain ⟨c, hc⟩ := hx.2 hp
      constructor
      · intro hn
        rw [List.find?_cons_of_neg _ (by simp [hp])] at hn
        obtain ⟨ys, hys⟩ := iht.1 hn
        exact ⟨c :: ys, by simp only [exceptMapList, hc, hys]⟩
      · intro x₀ hf
        rw [List.find?_cons_of_neg _ (by simp [hp])] at hf
        have hrec := iht.2 x₀ hf
        simp only [exceptMapList, hc, hrec]

theorem combinedRawCell_cases (odds : DraftKingsSquaresOdds) (wF wQ : ℚ)
    (a h : Nat)
    (hnzf : gridGet odds.finalResultOdds a h ≠ some 0)
    (hnzq : gridGet odds.anyQuarterOdds a h ≠ some 0) :
    (pairMissing odds a h = true →
      combinedRawCell odds wF wQ a h = .error (.missingOdds a h)) ∧
    (pairMissing odds a h = false →
      ∃ c, combinedRawCell odds wF wQ a h = .ok c) := by
  cases hf : gridGet odds.finalResultOdds a h with
  | none =>
    constructor
    · intro _
      cases hq : gridGet odds.anyQuarterOdds a h <;>
        (unfold combinedRawCell; rw [hf, hq])
    · intro hfalse
      unfold pairMissing at hfalse
      rw [hf] at hfalse
      simp at hfalse
  | some kf =>
    cases hq : gridGet odds.anyQuarterOdds a h with
    | none =>
      constructor
      · intro _
        unfold combinedRawCell
        rw [hf, hq]
      · intro hfalse
        unfold pairMissing at hfalse
        rw [hf, hq] at hfalse
        simp at hfalse
    | some kq =>
      constructor
      · intro htrue
        unfold pairMissing at htrue
        rw [hf, hq] at htrue
        simp at htrue
      · intro _
        have hkf : kf ≠ 0 := by
          intro h0
          subst h0
          exact hnzf hf
        have hkq : kq ≠ 0 := by
          intro h0
          subst h0
          exact hnzq hq
        obtain ⟨rf, hrf, -⟩ := rawProbability_ok kf hkf
        obtain ⟨rq, hrq, -⟩ := rawProbability_ok kq hkq
        refine ⟨wF * rf + wQ * rq, ?_⟩
        unfold combinedRawCell
        rw [hf, hq]
        simp only []
        rw [hrf]
        simp only []
        rw [hrq]

theorem computeCombinedRaw_first_missing (odds : DraftKingsSquaresOdds)
    (wF wQ : ℚ)
    (hnz : ∀ a, a < 10 → ∀ h, h < 10 →
      gridGet odds.finalResultOdds a h ≠ some 0 ∧
      gridGet odds.anyQuarterOdds a h ≠ some 0)
    (pr : Nat × Nat) (hfm : firstMissingPair odds = some pr) :
    pairMissing odds pr.1 pr.2 = true ∧
    computeCombinedRaw odds wF wQ = .error (.missingOdds pr.1 pr.2) := by
  have hmem : ∀ x ∈ DIGITS, x < 10 := by decide
  have hrow : ∀ a, a < 10 →
      ((rowFirstMissing odds a = none →
        ∃ ys, exceptMapList (fun h => combinedRawCell odds wF wQ a h) DIGITS
          = .ok ys) ∧
       (∀ h₀, rowFirstMissing odds a = some h₀ →
        exceptMapList (fun h => combinedRawCell odds wF wQ a h) DIGITS
          = .error (.missingOdds a h₀))) := by
    intro a ha
    refine exceptMapList_find_error _ (fun h => pairMissing odds a h)
      (fun h => .missingOdds a h) DIGITS ?_
    intro h hmh
    exact combinedRawCell_cases odds wF wQ a h
      (hnz a ha h (hmem h hmh)).1 (hnz a ha h (hmem h hmh)).2
  have houter := exceptMapList_find_error
    (fun a => exceptMapList (fun h => combinedRawCell odds wF wQ a h) DIGITS)
    (fun a => (rowFirstMissing odds a).isSome)
    (fun a => match rowFirstMissing odds a with
      | some h => .missingOdds a h
      | none => .invalidOdds)
    DIGITS ?hd
  case hd =>
    intro a hma
    constructor
    · intro hps
      simp only [] at hps
      simp only []
      cases hra : rowFirstMissing odds a with
      | none => rw [hra] at hps; simp at hps
      | some h₀ =>
        have hr2 := (hrow a (hmem a hma)).2 h₀ hra
        simp only []
        exact hr2
    · intro hps
      simp only [] at hps
      simp only []
      cases hra : rowFirstMissing odds a with
      | some h₀ => rw [hra] at hps; simp at hps
      | none => exact (hrow a (hmem a hma)).1 hra
  unfold firstMissingPair at hfm
  cases hfa : DIGITS.find? (fun a => (rowFirstMissing odds a).isSome) with
  | none => rw [hfa] at hfm; simp at hfm
  | some a =>
    rw [hfa] at hfm
    simp only [] at hfm
    cases hra : rowFirstMissing odds a with
    | none => rw [hra] at hfm; simp at hfm
    | some h₀ =>
      rw [hra] at hfm
      simp only [] at hfm
      injection hfm with hfm
      subst hfm
      have herr := houter.2 a hfa
      rw [hra] at herr
      simp only [] at herr
      constructor
      · have hps := List.find?_some hra
        exact hps
      · exact herr

/-- Counterexample for C4 as stated: with a zero quotation at the pair
(0,0) scanned before the missing pair (0,1), `computeAnalysis` fails
with `InvalidOdds`, not with `IncompleteOddsCoverage`, even though a
pair is absent from the final-result matrix and the board passes the
axis and shape checks. -/
theorem claim_C4_counterexample :
    isValidDigitArray emptyBoard.homeDigits = true ∧
    isValidDigitArray emptyBoard.awayDigits = true ∧
    emptyBoard.owners.length = 10 ∧
    pairMissing zeroThenMissingOdds 0 1 = true ∧
    computeSquaresAnalysis emptyBoard zeroThenMissingOdds 3 (8 / 10) (2 / 10)
      = .error .invalidOdds ∧
    computeSquaresAnalysis emptyBoard zeroThenMissingOdds 3 (8 / 10) (2 / 10)
      ≠ .error (.missingOdds 0 1) := by
  refine ⟨by decide, by decide, by decide, by decide, by decide, ?_⟩
  intro hcontra
  have h1 : computeSquaresAnalysis emptyBoard zeroThenMissingOdds 3 (8 / 10)
      (2 / 10) = .error .invalidOdds := by decide
  rw [h1] at hcontra
  simp at hcontra

/-- C4 (amended): `computeAnalysis` fails with `MalformedDigitAxis`
whenever a digit axis is invalid; with valid axes it fails with
`MalformedBoardShape` whenever the ownership grid is not 10x10; with a
valid board, provided no present quotation scanned is zero, it fails
with `IncompleteOddsCoverage` whenever any of the 100 pairs is absent
or non-finite in either matrix, naming the first missing combination in
row-major scan order; each failure is fail-fast with no partial
result. -/
theorem claim_C4_amended_failure_conditions (board : SquaresBoard)
    (odds : DraftKingsSquaresOdds) (p wF wQ : ℚ) :
    (¬ (isValidDigitArray board.homeDigits = true ∧
        isValidDigitArray board.awayDigits = true) →
      computeSquaresAnalysis board odds p wF wQ =
        .error .malformedDigitAxis) ∧
    (isValidDigitArray board.homeDigits = true →
      isValidDigitArray board.awayDigits = true →
      ¬ (board.owners.length = 10 ∧ ∀ r ∈ board.owners, r.length = 10) →
      computeSquaresAnalysis board odds p wF wQ =
        .error .malformedBoardShape) ∧
    (isValidDigitArray board.homeDigits = true →
      isValidDigitArray board.awayDigits = true →
      board.owners.length = 10 → (∀ r ∈ board.owners, r.length = 10) →
      (∀ a, a < 10 → ∀ h, h < 10 →
        gridGet odds.finalResultOdds a h ≠ some 0 ∧
        gridGet odds.anyQuarterOdds a h ≠ some 0) →
      ∀ pr, firstMissingPair odds = some pr →
        pairMissing odds pr.1 pr.2 = true ∧
        computeSquaresAnalysis board odds p wF wQ =
          .error (.missingOdds pr.1 pr.2)) ∧
    (firstMissingPair odds = none →
      ∀ a, a < 10 → ∀ h, h < 10 → pairMissing odds a h = false) := by
  refine ⟨?_, ?_, ?_, ?_⟩
  · intro hno
    unfold computeSquaresAnalysis
    cases h1 : isValidDigitArray board.homeDigits with
    | false =>
      simp only [Bool.not_false, if_true]
    | true =>
      have h2 : isValidDigitArray board.awayDigits = false := by
        cases h2 : isValidDigitArray board.awayDigits with
        | true => exact absurd ⟨h1, h2⟩ hno
        | false => rfl
      rw [h2]
      simp only [Bool.not_true, Bool.not_false, Bool.false_eq_true, if_false,
        if_true]
  · intro h1 h2 hshape
    unfold computeSquaresAnalysis
    rw [h1, h2]
    have h3 : (board.owners.length == 10 &&
        board.owners.all (fun row => row.length == 10)) = false := by
      cases h3 : (board.owners.length == 10 &&
          board.owners.all (fun row => row.length == 10)) with
      | true =>
        exfalso
        apply hshape
        rw [Bool.and_eq_true, List.all_eq_true] at h3
        exact ⟨beq_iff_eq.mp h3.1, fun r hr => beq_iff_eq.mp (h3.2 r hr)⟩
      | false => rfl
    rw [h3]
    simp only [Bool.not_true, Bool.not_false, Bool.false_eq_true, if_false,
      if_true]
  · intro h1 h2 hlen hrows hnz pr hfm
    obtain ⟨hpm, herr⟩ :=
      computeCombinedRaw_first_missing odds wF wQ hnz pr hfm
    refine ⟨hpm, ?_⟩
    unfold computeSquaresAnalysis
    rw [h1, h2]
    have h3 : (board.owners.length == 10 &&
        board.owners.all (fun row => row.length == 10)) = true := by
      rw [Bool.and_eq_true, List.all_eq_true]
      exact ⟨beq_iff_eq.mpr hlen, fun r hr => beq_iff_eq.mpr (hrows r hr)⟩
    rw [h3]
    simp only [Bool.not_true, Bool.false_eq_true, if_false]
    rw [herr]
  · intro hn a ha h hh
    have hmem10 : ∀ x, x < 10 → x ∈ DIGITS := by decide
    unfold firstMissingPair at hn
    cases hfa : DIGITS.find? (fun a => (rowFirstMissing odds a).isSome) with
    | some a' =>
      rw [hfa] at hn
      simp only [] at hn
      cases hra : rowFirstMissing odds a' with
      | some h' => rw [hra] at hn; simp at hn
      | none =>
        have hps := List.find?_some hfa
        rw [hra] at hps
        simp at hps
    | none =>
      have hall := List.find?_eq_none.mp hfa
      have h1 := hall a (hmem10 a ha)
      have h2 : rowFirstMissing odds a = none := by
        cases hx : rowFirstMissing odds a with
        | none => rfl
        | some y => rw [hx] at h1; simp at h1
      unfold rowFirstMissing at h2
      have h3 := List.find?_eq_none.mp h2 h (hmem10 h hh)
      cases hx : pairMissing odds a h with
      | false => rfl
      | true => exact absurd hx h3

/-- Witness for the amended C4: a bad axis, a bad shape, and a missing
pair with no zero quotations, each at a concrete input. -/
theorem claim_C4_witness :
    computeSquaresAnalysis badAxisBoard (uniformOdds (-110)) 3 (8 / 10)
      (2 / 10) = .error .malformedDigitAxis ∧
    computeSquaresAnalysis badShapeBoard (uniformOdds (-110)) 3 (8 / 10)
      (2 / 10) = .error .malformedBoardShape ∧
    pairMissing missingPairOdds 0 1 = true ∧
    computeSquaresAnalysis emptyBoard missingPairOdds 3 (8 / 10) (2 / 10)
      = .error (.missingOdds 0 1) :=
  ⟨(claim_C4_amended_failure_conditions badAxisBoard (uniformOdds (-110)) 3
      (8 / 10) (2 / 10)).1 (by decide),
   (claim_C4_amended_failure_conditions badShapeBoard (uniformOdds (-110)) 3
      (8 / 10) (2 / 10)).2.1 (by decide) (by decide) (by decide),
   ((claim_C4_amended_failure_conditions emptyBoard missingPairOdds 3
      (8 / 10) (2 / 10)).2.2.1 (by decide) (by decide) (by decide)
      (by decide) (by decide) (0, 1) (by decide)).1,
   ((claim_C4_amended_failure_conditions emptyBoard missingPairOdds 3
      (8 / 10) (2 / 10)).2.2.1 (by decide) (by decide) (by decide)
      (by decide) (by decide) (0, 1) (by decide)).2⟩

theorem foldl_max_le (l : List Nat) :
    ∀ a, a ≤ l.foldl Nat.max a ∧ ∀ x ∈ l, x ≤ l.foldl Nat.max a := by
  induction l with
  | nil => intro a; exact ⟨le_refl a, by simp⟩
  | cons y t ih =>
    intro a
    constructor
    · exact le_trans (Nat.le_max_left a y) (ih (Nat.max a y)).1
    · intro x hx
      rcases List.mem_cons.mp hx with rfl | hx
      · exact le_trans (Nat.le_max_right a x) (ih (Nat.max a x)).1
      · exact (ih (Nat.max a y)).2 x hx

/-- Counterexample for C3 as stated: on `"a,b\nc,d\ne,f,g"` the modal
column count of the split rows is 2, the row `["a","b"]` matches it, yet
the merge (which really targets the maximum column count, 3) treats it
as ragged and merges it away, so it does not survive into the output. -/
theorem claim_C3_counterexample :
    modalColumnCount (csvRowsOf (parsedLines "a,b\nc,d\ne,f,g".toList) ',')
      = 2 ∧
    ["a".toList, "b".toList] ∈
      csvRowsOf (parsedLines "a,b\nc,d\ne,f,g".toList) ',' ∧
    targetColumnsOf (csvRowsOf (parsedLines "a,b\nc,d\ne,f,g".toList) ',')
      = 3 ∧
    parseRows "a,b\nc,d\ne,f,g".toList =
      [["a".toList, "b".toList, "c".toList], ["d".toList],
       ["e".toList, "f".toList, "g".toList]] ∧
    ["a".toList, "b".toList] ∉ parseRows "a,b\nc,d\ne,f,g".toList := by
  decide

/-- C3 (amended): in delimiter-based tokenization the reference width is
the maximum column count of the split rows (at least 1), not the modal
one.  A row of exactly the target width flushes any pending buffer and
passes through unchanged; a narrower row is ragged: it starts the
pending buffer, or is concatenated onto a buffer still narrower than the
target; when the buffer reaches or exceeds the target width its first
`target` cells are flushed as one reconstructed row and any overflow
stays pending; a trailing non-blank pending buffer is flushed as-is. -/
theorem claim_C3_amended_ragged_merge (target : Nat)
    (out : List (List Str)) (pend : List Str) (row : List Str) :
    (row.length = target →
      mergeStep target (out, some pend) row = (out ++ [pend, row], none) ∧
      mergeStep target (out, none) row = (out ++ [row], none)) ∧
    (row.length < target →
      (mergeStep target (out, none) row = (out, some row)) ∧
      (pend.length < target →
        (pend.length + row.length < target →
          mergeStep target (out, some pend) row = (out, some (pend ++ row))) ∧
        (target ≤ pend.length + row.length →
          mergeStep target (out, some pend) row =
            (out ++ [(pend ++ row).take target],
             if target < pend.length + row.length then
               some ((pend ++ row).drop target)
             else none)))) ∧
    (∀ rows, rows.foldl (mergeStep target) ([], none) = (out, some pend) →
      pend.any (fun cell => !cell.isEmpty) = true →
      mergeRaggedRows target rows = out ++ [pend]) ∧
    (∀ csvRows : List (List Str), 1 ≤ targetColumnsOf csvRows ∧
      ∀ r ∈ csvRows, r.length ≤ targetColumnsOf csvRows) := by
  refine ⟨?_, ?_, ?_, ?_⟩
  · intro he
    constructor
    · unfold mergeStep
      rw [if_pos he]
    · unfold mergeStep
      rw [if_pos he]
  · intro hlt
    have hne : ¬ row.length = target := Nat.ne_of_lt hlt
    constructor
    · unfold mergeStep
      rw [if_neg hne]
      simp only []
      rw [if_neg (by omega : ¬ target ≤ row.length)]
    · intro hp
      constructor
      · intro hsum
        unfold mergeStep
        rw [if_neg hne]
        simp only []
        rw [if_pos (show pend.length < target ∧ row.length < target from
          ⟨hp, hlt⟩)]
        rw [if_neg (by rw [List.length_append]; omega)]
      · intro hsum
        unfold mergeStep
        rw [if_neg hne]
        simp only []
        rw [if_pos (show pend.length < target ∧ row.length < target from
          ⟨hp, hlt⟩)]
        rw [if_pos (by rw [List.length_append]; omega)]
        rw [List.length_append]
  · intro rows hfold hnb
    unfold mergeRaggedRows
    rw [hfold]
    simp only []
    rw [if_pos hnb]
  · intro csvRows
    constructor
    · exact (foldl_max_le (csvRows.map List.length) 1).1
    · intro r hr
      exact (foldl_max_le (csvRows.map List.length) 1).2 r.length
        (List.mem_map.mpr ⟨r, hr, rfl⟩)

/-- Witness for the amended C3 at target width 3: a full-width row
flushes the buffer, two two-cell ragged rows merge with overflow, and a
trailing buffer is flushed. -/
theorem claim_C3_witness :
    mergeStep 3 ([], some [['x']]) [['a'], ['b'], ['c']] =
      ([[['x']], [['a'], ['b'], ['c']]], none) ∧
    mergeStep 3 ([], some [['a'], ['b']]) [['c'], ['d']] =
      ([[['a'], ['b'], ['c']]], some [['d']]) ∧
    mergeRaggedRows 3 [[['a'], ['b']], [['c'], ['d']]] =
      [[['a'], ['b'], ['c']], [['d']]] := by
  refine ⟨?_, ?_, ?_⟩
  · exact ((claim_C3_amended_ragged_merge 3 [] [['x']]
      [['a'], ['b'], ['c']]).1 (by decide)).1
  · have h2 := ((((claim_C3_amended_ragged_merge 3 [] [['a'], ['b']]
      [['c'], ['d']]).2.1 (by decide)).2 (by decide)).2 (by decide))
    rw [h2]
    decide
  · exact (claim_C3_amended_ragged_merge 3 [[['a'], ['b'], ['c']]] [['d']]
      [['q']]).2.2.1 [[['a'], ['b']], [['c'], ['d']]] (by decide) (by decide)

theorem splitCh_no_sep (sep : Char) :
    ∀ x : Str, sep ∉ x → splitCh sep x = [x] := by
  intro x
  induction x with
  | nil => intro _; rfl
  | cons c cs ih =>
    intro hn
    have hc : ¬ c = sep := fun he => hn (he ▸ List.mem_cons_self c cs)
    simp only [splitCh]
    rw [if_neg hc, ih (fun hm => hn (List.mem_cons_of_mem c hm))]

theorem splitCh_append (sep : Char) :
    ∀ x l, sep ∉ x → splitCh sep (x ++ sep :: l) = x :: splitCh sep l := by
  intro x
  induction x with
  | nil =>
    intro l _
    simp only [List.nil_append, splitCh, if_pos]
  | cons c cs ih =>
    intro l hn
    have hc : ¬ c = sep := fun he => hn (he ▸ List.mem_cons_self c cs)
    simp only [List.cons_append, splitCh, List.append_eq]
    rw [if_neg hc, ih l (fun hm => hn (List.mem_cons_of_mem c hm))]

theorem joinCh_cons (sep : Char) (x : Str) (l : List Str) (h : l ≠ []) :
    joinCh sep (x :: l) = x ++ sep :: joinCh sep l := by
  cases l with
  | nil => exact absurd rfl h
  | cons y ys => rfl

theorem splitCh_joinCh (sep : Char) :
    ∀ cells : List Str, cells ≠ [] → (∀ cell ∈ cells, sep ∉ cell) →
      splitCh sep (joinCh sep cells) = cells := by
  intro cells
  induction cells with
  | nil => intro h _; exact absurd rfl h
  | cons x xs ih =>
    intro _ hn
    cases xs with
    | nil => exact splitCh_no_sep sep x (hn x (List.mem_cons_self x []))
    | cons y ys =>
      rw [joinCh_cons sep x (y :: ys) (by simp),
        splitCh_append sep x _ (hn x (List.mem_cons_self x (y :: ys))),
        ih (by simp) (fun cell hc => hn cell (List.mem_cons_of_mem x hc))]

theorem mem_joinCh (sep : Char) :
    ∀ (cells : List Str) (c : Char), c ∈ joinCh sep cells →
      c = sep ∨ ∃ cell ∈ cells, c ∈ cell := by
  intro cells
  induction cells with
  | nil => intro c hc; simp [joinCh] at hc
  | cons x xs ih =>
    intro c hc
    cases xs with
    | nil => exact Or.inr ⟨x, List.mem_cons_self x [], hc⟩
    | cons y ys =>
      rw [joinCh_cons sep x (y :: ys) (by simp)] at hc
      rcases List.mem_append.mp hc with hx | hrest
      · exact Or.inr ⟨x, List.mem_cons_self x (y :: ys), hx⟩
      · rcases List.mem_cons.mp hrest with rfl | hj
        · exact Or.inl rfl
        · rcases ih c hj with h | ⟨cell, hcell, hcc⟩
          · exact Or.inl h
          · exact Or.inr ⟨cell, List.mem_cons_of_mem x hcell, hcc⟩

theorem joinCh_getLast (sep : Char) :
    ∀ (cells : List Str) (last : Str), cells.getLast? = some last →
      last ≠ [] → (joinCh sep cells).getLast? = last.getLast? := by
  intro cells
  induction cells with
  | nil => intro last h _; simp at h
  | cons x xs ih =>
    intro last hl hne
    cases xs with
    | nil =>
      have hx : x = last := by simpa using hl
      subst hx
      rfl
    | cons y ys =>
      have hl2 : (y :: ys).getLast? = some last := by
        rwa [List.getLast?_cons_cons] at hl
      obtain ⟨c, hc⟩ : ∃ c, last.getLast? = some c := by
        cases hx : last.getLast? with
        | none => exact absurd (List.getLast?_eq_none_iff.mp hx) hne
        | some c => exact ⟨c, rfl⟩
      rw [joinCh_cons sep x (y :: ys) (by simp), List.getLast?_append]
      have hj := ih last hl2 hne
      have hsepj : (sep :: joinCh sep (y :: ys)).getLast? = some c := by
        rw [show sep :: joinCh sep (y :: ys)
            = [sep] ++ joinCh sep (y :: ys) from rfl]
        rw [List.getLast?_append, hj, hc]
        rfl
      rw [hsepj, hc]
      rfl

theorem dropWhile_head_nonws (l : Str) (c : Char) (hh : l.head? = some c)
    (hws : isJsSpace c = false) : l.dropWhile isJsSpace = l := by
  cases l with
  | nil => rfl
  | cons a t =>
    have ha : a = c := by injection hh
    exact List.dropWhile_cons_of_neg (by rw [ha, hws]; simp)

theorem takeWhile_head_nonws (l : Str) (c : Char) (hh : l.head? = some c)
    (hws : isJsSpace c = false) : l.takeWhile isJsSpace = [] := by
  cases l with
  | nil => rfl
  | cons a t =>
    have ha : a = c := by injection hh
    exact List.takeWhile_cons_of_neg (by rw [ha, hws]; simp)

theorem jsTrim_eq_nil_iff (l : Str) :
    jsTrim l = [] ↔ ∀ c ∈ l, isJsSpace c = true := by
  unfold jsTrim
  constructor
  · intro h c hc
    have h1 : (l.dropWhile isJsSpace).reverse.dropWhile isJsSpace = [] := by
      rwa [List.reverse_eq_nil_iff] at h
    have h2 := List.dropWhile_eq_nil_iff.mp h1
    have hc2 : c ∈ l.takeWhile isJsSpace ++ l.dropWhile isJsSpace := by
      rwa [List.takeWhile_append_dropWhile]
    rcases List.mem_append.mp hc2 with h3 | h3
    · exact List.mem_takeWhile_imp h3
    · exact h2 c (List.mem_reverse.mpr h3)
  · intro h
    rw [List.dropWhile_eq_nil_iff.mpr h]
    rfl

theorem stripTrailing_endsNonWs (l : Str) (c : Char)
    (hc : l.getLast? = some c) (hws : isJsSpace c = false) :
    (l.reverse.dropWhile isJsSpace).reverse = l := by
  have h1 : l.reverse.head? = some c := by rw [List.head?_reverse, hc]
  rw [dropWhile_head_nonws l.reverse c h1 hws, List.reverse_reverse]

theorem stripLeadingBlank_nonws (l : Str) (c : Char) (hh : l.head? = some c)
    (hws : isJsSpace c = false) : stripLeadingBlank l = l := by
  unfold stripLeadingBlank
  rw [takeWhile_head_nonws l c hh hws]
  rfl

theorem head?_append_left {α : Type} (l l' : List α) (a : α)
    (h : l.head? = some a) : (l ++ l').head? = some a := by
  cases l with
  | nil => simp at h
  | cons x t => simpa using h

theorem jsTrim_body (body : Str) (cb ce : Char)
    (hh : body.head? = some cb) (hwb : isJsSpace cb = false)
    (hl : body.getLast? = some ce) (hwe : isJsSpace ce = false) :
    jsTrim (body ++ ['\n']) = body := by
  unfold jsTrim
  rw [dropWhile_head_nonws _ cb (head?_append_left body ['\n'] cb hh) hwb]
  rw [List.reverse_append]
  simp only [List.reverse_cons, List.reverse_nil, List.nil_append,
    List.singleton_append]
  rw [List.dropWhile_cons_of_pos (by decide)]
  rw [dropWhile_head_nonws body.reverse ce
    (by rw [List.head?_reverse, hl]) hwe]
  exact List.reverse_reverse body

theorem stripBlank_render (body : Str) (cb ce : Char)
    (hh : body.head? = some cb) (hwb : isJsSpace cb = false)
    (hl : body.getLast? = some ce) (hwe : isJsSpace ce = false) :
    stripTrailingBlank (stripLeadingBlank (body ++ ['\n'])) = body := by
  rw [stripLeadingBlank_nonws _ cb (head?_append_left body ['\n'] cb hh) hwb]
  unfold stripTrailingBlank
  rw [List.reverse_append]
  simp only [List.reverse_cons, List.reverse_nil, List.nil_append,
    List.singleton_append]
  unfold stripLeadingBlank
  have ht : ('\n' :: body.reverse).takeWhile isJsSpace = ['\n'] := by
    rw [List.takeWhile_cons_of_pos (by decide)]
    rw [takeWhile_head_nonws body.reverse ce
      (by rw [List.head?_reverse, hl]) hwe]
  rw [ht]
  have hidx : lastIdxOf ['\n'] '\n' = some 0 := by decide
  rw [hidx]
  simp only [List.drop_succ_cons, List.drop_zero]
  exact List.reverse_reverse body

theorem mem_of_getLast_some {α : Type} (l : List α) (a : α)
    (h : l.getLast? = some a) : a ∈ l := by
  have hne : l ≠ [] := fun hn => by rw [hn] at h; simp at h
  rw [List.getLast?_eq_getLast l hne] at h
  injection h with h
  exact h ▸ List.getLast_mem hne

theorem getLast_of_ne_nil {α : Type} (l : List α) (h : l ≠ []) :
    ∃ a, l.getLast? = some a := by
  cases hx : l.getLast? with
  | none => exact absurd (List.getLast?_eq_none_iff.mp hx) h
  | some a => exact ⟨a, rfl⟩

theorem head_dropWhile_false (l : Str) (c : Char)
    (h : (l.dropWhile isJsSpace).head? = some c) : isJsSpace c = false := by
  induction l with
  | nil => simp [List.dropWhile] at h
  | cons a t ih =>
    by_cases ha : isJsSpace a = true
    · rw [List.dropWhile_cons_of_pos ha] at h
      exact ih h
    · rw [List.dropWhile_cons_of_neg ha] at h
      injection h with h2
      subst h2
      exact Bool.eq_false_iff.mpr ha

theorem jsTrim_getLast_nonws (s : Str) (c : Char)
    (h : (jsTrim s).getLast? = some c) : isJsSpace c = false := by
  unfold jsTrim at h
  rw [List.getLast?_reverse] at h
  exact head_dropWhile_false _ c h

theorem jsTrim_head_nonws (s : Str) (c : Char)
    (h : (jsTrim s).head? = some c) : isJsSpace c = false := by
  unfold jsTrim at h
  have h1 : (s.dropWhile isJsSpace).reverse.dropWhile isJsSpace <:+
      (s.dropWhile isJsSpace).reverse := List.dropWhile_suffix _
  have h2 := List.reverse_prefix.mpr h1
  rw [List.reverse_reverse] at h2
  obtain ⟨t, ht⟩ := h2
  have h3 : (s.dropWhile isJsSpace).head? = some c := by
    rw [← ht]
    exact head?_append_left _ t c h
  exact head_dropWhile_false s c h3

theorem collapseWsGo_mem_nonws (l : Str) (c : Char) (hc : c ∈ l)
    (hw : isJsSpace c = false) : ∀ b, c ∈ collapseWsGo b l := by
  induction l with
  | nil => simp at hc
  | cons a t ih =>
    intro b
    rcases List.mem_cons.mp hc with h | h
    · subst h
      unfold collapseWsGo
      rw [if_neg (by rw [hw]; exact Bool.false_ne_true)]
      exact List.mem_cons_self c _
    · unfold collapseWsGo
      by_cases ha : isJsSpace a = true
      · rw [if_pos ha]
        by_cases hb : b = true
        · rw [hb, if_pos rfl]
          exact ih h true
        · rw [if_neg hb]
          exact List.mem_cons_of_mem _ (ih h true)
      · rw [if_neg ha]
        exact List.mem_cons_of_mem _ (ih h false)

theorem normalizeCell_ne_nil (l : Str) (c : Char) (hc : c ∈ l)
    (hw : isJsSpace c = false) : normalizeCell l ≠ [] := by
  unfold normalizeCell collapseWs
  intro h
  have hmem := (jsTrim_eq_nil_iff _).mp h c (collapseWsGo_mem_nonws l c hc hw false)
  rw [hw] at hmem
  exact Bool.false_ne_true hmem

theorem normalizeCell_fix_head (l : Str) (c : Char)
    (hfix : normalizeCell l = l) (hh : l.head? = some c) :
    isJsSpace c = false :=
  jsTrim_head_nonws (collapseWs l) c (by
    rw [show jsTrim (collapseWs l) = normalizeCell l from rfl, hfix]
    exact hh)

theorem normalizeCell_fix_last (l : Str) (c : Char)
    (hfix : normalizeCell l = l) (hl : l.getLast? = some c) :
    isJsSpace c = false :=
  jsTrim_getLast_nonws (collapseWs l) c (by
    rw [show jsTrim (collapseWs l) = normalizeCell l from rfl, hfix]
    exact hl)

theorem map_id_of {α : Type} (f : α → α) (l : List α)
    (h : ∀ a ∈ l, f a = a) : l.map f = l := by
  induction l with
  | nil => rfl
  | cons a t ih =>
    rw [List.map_cons, h a (List.mem_cons_self a t),
      ih (fun x hx => h x (List.mem_cons_of_mem a hx))]

theorem removeTripleTick_id (l : Str) (h : ∀ c ∈ l, c ≠ tickChar) :
    removeTripleTick l = l := by
  induction l with
  | nil => rfl
  | cons c rest ih =>
    cases rest with
    | nil => rfl
    | cons d rest2 =>
      cases rest2 with
      | nil => rfl
      | cons e rest3 =>
        unfold removeTripleTick
        rw [if_neg (fun hcon => h c (List.mem_cons_self c _) hcon.1)]
        rw [ih (fun x hx => h x (List.mem_cons_of_mem c hx))]

theorem joinCh_head (sep : Char) (x : Str) (xs : List Str) (c : Char)
    (hx : x.head? = some c) : (joinCh sep (x :: xs)).head? = some c := by
  cases xs with
  | nil => exact hx
  | cons y ys =>
    rw [joinCh_cons sep x (y :: ys) (by simp)]
    exact head?_append_left x _ c hx

theorem isPrefixOf_eq_false (a : Char) (p l : Str) (cb : Char)
    (hh : l.head? = some cb) (hne : a ≠ cb) :
    List.isPrefixOf (a :: p) l = false := by
  cases l with
  | nil => simp at hh
  | cons b t =>
    have hb : b = cb := by
      rw [List.head?_cons] at hh
      injection hh
    show (a == b && List.isPrefixOf p t) = false
    simp [hb, hne]

theorem wrapper_pred_false (trimmed pre suf : Str) (a cb : Char)
    (hpre : pre.head? = some a) (hh : trimmed.head? = some cb) (hne : a ≠ cb) :
    (pre.isPrefixOf trimmed && suf.isSuffixOf trimmed &&
      decide (pre.length + suf.length < trimmed.length)) = false := by
  cases pre with
  | nil => simp at hpre
  | cons x xs =>
    have hx : x = a := by
      rw [List.head?_cons] at hpre
      injection hpre
    rw [isPrefixOf_eq_false x xs trimmed cb hh (hx ▸ hne)]
    rfl

theorem find?_wrappers_none (trimmed : Str) (cb : Char)
    (hh : trimmed.head? = some cb)
    (h1 : cb ≠ tickChar) (h2 : cb ≠ quoteChar) (h3 : cb ≠ aposChar)
    (h4 : cb ≠ '(') (h5 : cb ≠ Char.ofNat 0x201C) :
    (wrapperPairs.find? (fun p =>
      p.1.isPrefixOf trimmed && p.2.isSuffixOf trimmed &&
        decide (p.1.length + p.2.length < trimmed.length))) = none := by
  rw [List.find?_eq_none]
  intro p hp
  unfold wrapperPairs at hp
  simp only [List.mem_cons, List.not_mem_nil, or_false] at hp
  intro hcontra
  rcases hp with h | h | h | h | h | h <;> subst h
  · rw [wrapper_pred_false trimmed ("```".toList) ("```".toList) tickChar cb
      (by decide) hh (Ne.symm h1)] at hcontra
    exact Bool.false_ne_true hcontra
  · rw [wrapper_pred_false trimmed [Char.ofNat 0x201C] [Char.ofNat 0x201D]
      (Char.ofNat 0x201C) cb rfl hh (Ne.symm h5)] at hcontra
    exact Bool.false_ne_true hcontra
  · rw [wrapper_pred_false trimmed [quoteChar] [quoteChar] quoteChar cb
      rfl hh (Ne.symm h2)] at hcontra
    exact Bool.false_ne_true hcontra
  · rw [wrapper_pred_false trimmed [aposChar] [aposChar] aposChar cb
      rfl hh (Ne.symm h3)] at hcontra
    exact Bool.false_ne_true hcontra
  · rw [wrapper_pred_false trimmed [tickChar] [tickChar] tickChar cb
      rfl hh (Ne.symm h1)] at hcontra
    exact Bool.false_ne_true hcontra
  · rw [wrapper_pred_false trimmed ['('] [')'] '(' cb
      rfl hh (Ne.symm h4)] at hcontra
    exact Bool.false_ne_true hcontra

theorem unwrapTextBlock_plain (text : Str) (cb : Char)
    (hh : (jsTrim text).head? = some cb)
    (h1 : cb ≠ tickChar) (h2 : cb ≠ quoteChar) (h3 : cb ≠ aposChar)
    (h4 : cb ≠ '(') (h5 : cb ≠ Char.ofNat 0x201C) :
    unwrapTextBlock text = stripTrailingBlank (stripLeadingBlank text) := by
  simp only [unwrapTextBlock]
  rw [find?_wrappers_none (jsTrim text) cb hh h1 h2 h3 h4 h5]

theorem unwrap_render (body : Str) (cb ce : Char)
    (hh : body.head? = some cb) (hwb : isJsSpace cb = false)
    (hl : body.getLast? = some ce) (hwe : isJsSpace ce = false)
    (h1 : cb ≠ tickChar) (h2 : cb ≠ quoteChar) (h3 : cb ≠ aposChar)
    (h4 : cb ≠ '(') (h5 : cb ≠ Char.ofNat 0x201C) :
    unwrapTextBlock (body ++ ['\n']) = body := by
  rw [unwrapTextBlock_plain (body ++ ['\n']) cb
    (by rw [jsTrim_body body cb ce hh hwb hl hwe]; exact hh) h1 h2 h3 h4 h5]
  exact stripBlank_render body cb ce hh hwb hl hwe

theorem cellCharOk_spec (c : Char) (h : cellCharOk c = true) :
    c ≠ '\t' ∧ c ≠ '\n' ∧ c ≠ '\r' ∧ c ≠ Char.ofNat 160 ∧
      c ≠ Char.ofNat 0xFF0C ∧ c ≠ tickChar := by
  simp only [cellCharOk, Bool.not_or, Bool.and_eq_true, Bool.not_eq_true',
    decide_eq_false_iff_not] at h
  tauto

theorem bodyChar_safe (c : Char)
    (h : cellCharOk c = true ∨ c = '\t' ∨ c = '\n') :
    c ≠ Char.ofNat 160 ∧ c ≠ Char.ofNat 0xFF0C ∧ c ≠ '\r' ∧ c ≠ tickChar := by
  rcases h with h | h | h
  · obtain ⟨_, _, h3, h4, h5, h6⟩ := cellCharOk_spec c h
    exact ⟨h4, h5, h3, h6⟩
  · subst h
    exact ⟨by decide, by decide, by decide, by decide⟩
  · subst h
    exact ⟨by decide, by decide, by decide, by decide⟩

theorem cleanedText_render (body : Str) (cb ce : Char)
    (hh : body.head? = some cb) (hwb : isJsSpace cb = false)
    (hl : body.getLast? = some ce) (hwe : isJsSpace ce = false)
    (h1 : cb ≠ tickChar) (h2 : cb ≠ quoteChar) (h3 : cb ≠ aposChar)
    (h4 : cb ≠ '(') (h5 : cb ≠ Char.ofNat 0x201C)
    (hchars : ∀ c ∈ body, cellCharOk c = true ∨ c = '\t' ∨ c = '\n') :
    cleanedText (body ++ ['\n']) = body := by
  unfold cleanedText
  rw [unwrap_render body cb ce hh hwb hl hwe h1 h2 h3 h4 h5]
  rw [map_id_of _ body (fun c hc => if_neg ((bodyChar_safe c (hchars c hc)).1))]
  rw [map_id_of _ body (fun c hc => if_neg ((bodyChar_safe c (hchars c hc)).2.1))]
  rw [List.filter_eq_self.mpr (fun c hc =>
    decide_eq_true ((bodyChar_safe c (hchars c hc)).2.2.1))]
  exact removeTripleTick_id body (fun c hc =>
    (bodyChar_safe c (hchars c hc)).2.2.2)

theorem isEmpty_false_iff (l : Str) : l.isEmpty = false ↔ l ≠ [] := by
  cases l with
  | nil => simp [List.isEmpty]
  | cons a t => simp [List.isEmpty]

theorem isEmpty_true_iff (l : Str) : l.isEmpty = true ↔ l = [] := by
  cases l with
  | nil => simp [List.isEmpty]
  | cons a t => simp [List.isEmpty]

theorem parsedLines_render (rlines : List Str) (cb ce : Char)
    (hne : rlines ≠ [])
    (hh : (joinCh '\n' rlines).head? = some cb) (hwb : isJsSpace cb = false)
    (hl : (joinCh '\n' rlines).getLast? = some ce) (hwe : isJsSpace ce = false)
    (h1 : cb ≠ tickChar) (h2 : cb ≠ quoteChar) (h3 : cb ≠ aposChar)
    (h4 : cb ≠ '(') (h5 : cb ≠ Char.ofNat 0x201C)
    (hsafe : ∀ line ∈ rlines, ∀ c ∈ line, cellCharOk c = true ∨ c = '\t')
    (hlast : ∀ line ∈ rlines,
      ∃ c, line.getLast? = some c ∧ isJsSpace c = false) :
    parsedLines (renderGrid rlines) = rlines := by
  have hchars : ∀ c ∈ joinCh '\n' rlines,
      cellCharOk c = true ∨ c = '\t' ∨ c = '\n' := by
    intro c hc
    rcases mem_joinCh '\n' rlines c hc with h | ⟨line, hline, hcl⟩
    · right; right; exact h
    · rcases hsafe line hline c hcl with h | h
      · left; exact h
      · right; left; exact h
  have hns : ∀ line ∈ rlines, '\n' ∉ line := by
    intro line hline hmem
    rcases hsafe line hline '\n' hmem with h | h
    · exact ((cellCharOk_spec _ h).2.1) rfl
    · exact absurd h (by decide)
  unfold parsedLines renderGrid
  rw [cleanedText_render (joinCh '\n' rlines) cb ce hh hwb hl hwe
    h1 h2 h3 h4 h5 hchars]
  rw [splitCh_joinCh '\n' rlines hne hns]
  rw [map_id_of _ rlines (fun line hline => by
    obtain ⟨c, hc1, hc2⟩ := hlast line hline
    exact stripTrailing_endsNonWs line c hc1 hc2)]
  refine List.filter_eq_self.mpr (fun line hline => ?_)
  obtain ⟨c, hc1, hc2⟩ := hlast line hline
  have hnn : jsTrim line ≠ [] := fun hcon => by
    have hmem := (jsTrim_eq_nil_iff line).mp hcon c (mem_of_getLast_some line c hc1)
    rw [hc2] at hmem
    exact Bool.false_ne_true hmem
  have hie : (jsTrim line).isEmpty = false := (isEmpty_false_iff _).mpr hnn
  rw [hie]
  rfl

theorem labelOk_spec (l : Str) (h : labelOk l = true) :
    l ≠ [] ∧ normalizeCell l = l ∧ maybeDigit l = none ∧
      ∀ c ∈ l, cellCharOk c = true := by
  simp only [labelOk, Bool.and_eq_true, Bool.not_eq_true',
    decide_eq_true_eq, List.all_eq_true] at h
  exact ⟨(isEmpty_false_iff l).mp h.1.1.1, h.1.1.2, h.1.2, h.2⟩

theorem cellOk_spec (cell : Str) (h : cellOk cell = true) :
    (∀ c ∈ cell, cellCharOk c = true) ∧
      (cell = [] ∨ (isJsSpace (cell.headD ' ') = false ∧
        isJsSpace (cell.getLastD ' ') = false)) := by
  simp only [cellOk, Bool.and_eq_true, Bool.or_eq_true, List.all_eq_true,
    Bool.not_eq_true'] at h
  rcases h with ⟨hc, h2 | h2⟩
  · exact ⟨hc, Or.inl ((isEmpty_true_iff _).mp h2)⟩
  · exact ⟨hc, Or.inr h2⟩

theorem rowOk_spec (row : List Str) (h : rowOk row = true) :
    row.length = 10 ∧ (∀ cell ∈ row, cellOk cell = true) ∧
      row.getLastD [] ≠ [] := by
  simp only [rowOk, Bool.and_eq_true, beq_iff_eq, List.all_eq_true,
    Bool.not_eq_true'] at h
  exact ⟨h.1.1, h.1.2, (isEmpty_false_iff _).mp h.2⟩

theorem getLast_nonws_of_getLastD (l : Str) (hne : l ≠ [])
    (h : isJsSpace (l.getLastD ' ') = false) :
    ∃ c, l.getLast? = some c ∧ isJsSpace c = false := by
  obtain ⟨a, ha⟩ := getLast_of_ne_nil l hne
  refine ⟨a, ha, ?_⟩
  rwa [List.getLastD_eq_getLast?, ha] at h

theorem digitCell_facts (d : Int) (h0 : 0 ≤ d) (h9 : d ≤ 9) :
    normalizeCell (digitCell d) = digitCell d ∧
      maybeDigit (digitCell d) = some d ∧
      (∀ c ∈ digitCell d, cellCharOk c = true) ∧
      digitCell d ≠ [] ∧
      isJsSpace ((digitCell d).getLastD ' ') = false := by
  interval_cases d <;>
    exact ⟨by decide, by decide, by decide, by decide, by decide⟩

theorem renderLine_label_facts (labels : List Str)
    (hlen : labels.length = 10) (hall : ∀ l ∈ labels, labelOk l = true) :
    (∀ c ∈ renderLine labels, cellCharOk c = true ∨ c = '\t') ∧
      (∃ c, (renderLine labels).getLast? = some c ∧ isJsSpace c = false) := by
  have hne : labels ≠ [] := by intro hn; rw [hn] at hlen; simp at hlen
  constructor
  · intro c hc
    rcases mem_joinCh '\t' labels c hc with h | ⟨cell, hcell, hcc⟩
    · right; exact h
    · left; exact (labelOk_spec cell (hall cell hcell)).2.2.2 c hcc
  · obtain ⟨l9, hl9⟩ := getLast_of_ne_nil labels hne
    obtain ⟨hne9, hfix9, -, -⟩ :=
      labelOk_spec l9 (hall l9 (mem_of_getLast_some labels l9 hl9))
    obtain ⟨c, hc⟩ := getLast_of_ne_nil l9 hne9
    refine ⟨c, ?_, normalizeCell_fix_last l9 c hfix9 hc⟩
    show (joinCh '\t' labels).getLast? = some c
    rw [joinCh_getLast '\t' labels l9 hl9 hne9]
    exact hc

theorem renderLine_digit_facts (digits : List Int)
    (hD : isValidDigitArray digits = true) :
    (∀ c ∈ renderLine (digits.map digitCell),
        cellCharOk c = true ∨ c = '\t') ∧
      (∃ c, (renderLine (digits.map digitCell)).getLast? = some c ∧
        isJsSpace c = false) := by
  obtain ⟨hlen, -, hbound⟩ := isValidDigitArray_unpack digits hD
  have hne : digits ≠ [] := by intro hn; rw [hn] at hlen; simp at hlen
  constructor
  · intro c hc
    rcases mem_joinCh '\t' (digits.map digitCell) c hc with h | ⟨cell, hcell, hcc⟩
    · right; exact h
    · left
      obtain ⟨d, hd, hdc⟩ := List.mem_map.mp hcell
      obtain ⟨hb0, hb9⟩ := hbound d hd
      rw [← hdc] at hcc
      exact (digitCell_facts d hb0 hb9).2.2.1 c hcc
  · obtain ⟨d9, hd9⟩ := getLast_of_ne_nil digits hne
    obtain ⟨hb0, hb9⟩ := hbound d9 (mem_of_getLast_some digits d9 hd9)
    obtain ⟨-, -, -, hdne, hdlast⟩ := digitCell_facts d9 hb0 hb9
    obtain ⟨c, hc1, hc2⟩ := getLast_nonws_of_getLastD (digitCell d9) hdne hdlast
    refine ⟨c, ?_, hc2⟩
    have hmap : (digits.map digitCell).getLast? = some (digitCell d9) := by
      rw [List.getLast?_map, hd9]
      rfl
    show (joinCh '\t' (digits.map digitCell)).getLast? = some c
    rw [joinCh_getLast '\t' (digits.map digitCell) (digitCell d9) hmap hdne]
    exact hc1

theorem renderLine_owner_facts (row : List Str) (h : rowOk row = true) :
    (∀ c ∈ renderLine row, cellCharOk c = true ∨ c = '\t') ∧
      (∃ c, (renderLine row).getLast? = some c ∧ isJsSpace c = false) := by
  obtain ⟨hlen, hcells, hlast⟩ := rowOk_spec row h
  have hne : row ≠ [] := by intro hn; rw [hn] at hlen; simp at hlen
  constructor
  · intro c hc
    rcases mem_joinCh '\t' row c hc with hsep | ⟨cell, hcell, hcc⟩
    · right; exact hsep
    · left; exact (cellOk_spec cell (hcells cell hcell)).1 c hcc
  · obtain ⟨lc, hlc⟩ := getLast_of_ne_nil row hne
    have hlcD : row.getLastD [] = lc := by
      rw [List.getLastD_eq_getLast?, hlc]
      rfl
    have hlcne : lc ≠ [] := hlcD ▸ hlast
    have hok := cellOk_spec lc (hcells lc (mem_of_getLast_some row lc hlc))
    rcases hok.2 with h2 | h2
    · exact absurd h2 hlcne
    · obtain ⟨c, hc1, hc2⟩ := getLast_nonws_of_getLastD lc hlcne h2.2
      refine ⟨c, ?_, hc2⟩
      show (joinCh '\t' row).getLast? = some c
      rw [joinCh_getLast '\t' row lc hlc hlcne]
      exact hc1

theorem rowNonBlank_of_mem (row : List Str) (cell : Str) (hm : cell ∈ row)
    (hne : cell ≠ []) : rowNonBlank row = true := by
  unfold rowNonBlank
  rw [List.any_eq_true]
  refine ⟨cell, hm, ?_⟩
  rw [(isEmpty_false_iff cell).mpr hne]
  rfl

theorem owner_row_split (row : List Str) (h : rowOk row = true) :
    (splitCh '\t' (renderLine row)).map normalizeCell =
      row.map normalizeCell := by
  obtain ⟨hlen, hcells, -⟩ := rowOk_spec row h
  have hne : row ≠ [] := by intro hn; rw [hn] at hlen; simp at hlen
  have htab : ∀ cell ∈ row, '\t' ∉ cell := fun cell hc hmem =>
    (cellCharOk_spec _ ((cellOk_spec cell (hcells cell hc)).1 '\t' hmem)).1 rfl
  show (splitCh '\t' (joinCh '\t' row)).map normalizeCell = _
  rw [splitCh_joinCh '\t' row hne htab]

theorem owner_row_nonblank (row : List Str) (h : rowOk row = true) :
    rowNonBlank (row.map normalizeCell) = true := by
  obtain ⟨hlen, hcells, hlast⟩ := rowOk_spec row h
  have hne : row ≠ [] := by intro hn; rw [hn] at hlen; simp at hlen
  obtain ⟨lc, hlc⟩ := getLast_of_ne_nil row hne
  have hlcD : row.getLastD [] = lc := by
    rw [List.getLastD_eq_getLast?, hlc]
    rfl
  have hlcne : lc ≠ [] := hlcD ▸ hlast
  have hok := cellOk_spec lc (hcells lc (mem_of_getLast_some row lc hlc))
  rcases hok.2 with h2 | h2
  · exact absurd h2 hlcne
  · obtain ⟨c0, t0, hc0⟩ : ∃ c0 t0, lc = c0 :: t0 := by
      cases lc with
      | nil => exact absurd rfl hlcne
      | cons a t => exact ⟨a, t, rfl⟩
    have hhead : isJsSpace c0 = false := by
      rw [hc0] at h2
      simpa using h2.1
    have hnn : normalizeCell lc ≠ [] :=
      normalizeCell_ne_nil lc c0 (by rw [hc0]; exact List.mem_cons_self c0 t0)
        hhead
    exact rowNonBlank_of_mem _ (normalizeCell lc)
      (List.mem_map_of_mem normalizeCell (mem_of_getLast_some row lc hlc)) hnn

theorem parseRows_render_aux (c0 : Char) (l0t : Str) (lrest : List Str)
    (digits : List Int) (owners : List (List Str))
    (hlen10 : ((c0 :: l0t) :: lrest).length = 10)
    (hall : ∀ l ∈ (c0 :: l0t) :: lrest, labelOk l = true)
    (hq : c0 ≠ quoteChar) (ha : c0 ≠ aposChar) (hp : c0 ≠ '(')
    (hc : c0 ≠ Char.ofNat 0x201C)
    (hD : isValidDigitArray digits = true)
    (hO : owners.length = 10)
    (hR : ∀ row ∈ owners, rowOk row = true) :
    parseRows (pastedGrid ((c0 :: l0t) :: lrest) digits owners) =
      ((c0 :: l0t) :: lrest) :: digits.map digitCell ::
        owners.map (fun row => row.map normalizeCell) := by
  obtain ⟨hl0ne, hl0fix, hl0md, hl0chars⟩ :=
    labelOk_spec (c0 :: l0t) (hall _ (List.mem_cons_self _ _))
  have hc0ws : isJsSpace c0 = false :=
    normalizeCell_fix_head (c0 :: l0t) c0 hl0fix rfl
  have hc0tk : c0 ≠ tickChar :=
    (cellCharOk_spec c0 (hl0chars c0 (List.mem_cons_self _ _))).2.2.2.2.2
  have hlrest : lrest ≠ [] := by
    intro hn
    rw [hn] at hlen10
    simp at hlen10
  have hownersne : owners ≠ [] := by
    intro hn
    rw [hn] at hO
    simp at hO
  have hLf := renderLine_label_facts ((c0 :: l0t) :: lrest) hlen10 hall
  have hDf := renderLine_digit_facts digits hD
  obtain ⟨lastRow, hlrow⟩ := getLast_of_ne_nil owners hownersne
  have hOf := renderLine_owner_facts lastRow
    (hR lastRow (mem_of_getLast_some owners lastRow hlrow))
  obtain ⟨ce, hce1, hce2⟩ := hOf.2
  have hrow1head : (renderLine ((c0 :: l0t) :: lrest)).head? = some c0 :=
    joinCh_head '\t' (c0 :: l0t) lrest c0 rfl
  have hrlast : (renderLine ((c0 :: l0t) :: lrest) ::
      renderLine (digits.map digitCell) :: owners.map renderLine).getLast? =
      some (renderLine lastRow) := by
    show ([renderLine ((c0 :: l0t) :: lrest),
      renderLine (digits.map digitCell)] ++ owners.map renderLine).getLast? = _
    rw [List.getLast?_append]
    have hml : (owners.map renderLine).getLast? = some (renderLine lastRow) := by
      rw [List.getLast?_map, hlrow]
      rfl
    rw [hml]
    rfl
  have hrlne : renderLine lastRow ≠ [] := by
    intro hn
    rw [hn] at hce1
    simp at hce1
  have hbh : (joinCh '\n' (renderLine ((c0 :: l0t) :: lrest) ::
      renderLine (digits.map digitCell) :: owners.map renderLine)).head? =
      some c0 :=
    joinCh_head '\n' _ _ c0 hrow1head
  have hbl : (joinCh '\n' (renderLine ((c0 :: l0t) :: lrest) ::
      renderLine (digits.map digitCell) :: owners.map renderLine)).getLast? =
      some ce := by
    rw [joinCh_getLast '\n' _ (renderLine lastRow) hrlast hrlne]
    exact hce1
  have hsafe : ∀ line ∈ renderLine ((c0 :: l0t) :: lrest) ::
      renderLine (digits.map digitCell) :: owners.map renderLine,
      ∀ c ∈ line, cellCharOk c = true ∨ c = '\t' := by
    intro line hline
    rcases List.mem_cons.mp hline with h | hline2
    · exact h ▸ hLf.1
    · rcases List.mem_cons.mp hline2 with h | hline3
      · exact h ▸ hDf.1
      · obtain ⟨row, hrow, hrl⟩ := List.mem_map.mp hline3
        exact hrl ▸ (renderLine_owner_facts row (hR row hrow)).1
  have hlastf : ∀ line ∈ renderLine ((c0 :: l0t) :: lrest) ::
      renderLine (digits.map digitCell) :: owners.map renderLine,
      ∃ c, line.getLast? = some c ∧ isJsSpace c = false := by
    intro line hline
    rcases List.mem_cons.mp hline with h | hline2
    · exact h ▸ hLf.2
    · rcases List.mem_cons.mp hline2 with h | hline3
      · exact h ▸ hDf.2
      · obtain ⟨row, hrow, hrl⟩ := List.mem_map.mp hline3
        exact hrl ▸ (renderLine_owner_facts row (hR row hrow)).2
  have hpl := parsedLines_render
    (renderLine ((c0 :: l0t) :: lrest) ::
      renderLine (digits.map digitCell) :: owners.map renderLine)
    c0 ce (by simp) hbh hc0ws hbl hce2 hc0tk hq ha hp hc hsafe hlastf
  have htab_any : ((renderLine ((c0 :: l0t) :: lrest) ::
      renderLine (digits.map digitCell) :: owners.map renderLine).any
      (fun line => line.contains '\t')) = true := by
    rw [List.any_eq_true]
    refine ⟨renderLine ((c0 :: l0t) :: lrest), List.mem_cons_self _ _, ?_⟩
    have hmem : '\t' ∈ joinCh '\t' ((c0 :: l0t) :: lrest) := by
      rw [joinCh_cons '\t' _ lrest hlrest]
      exact List.mem_append_right _ (List.mem_cons_self _ _)
    exact List.elem_iff.mpr hmem
  have e1 : (splitCh '\t' (renderLine ((c0 :: l0t) :: lrest))).map
      normalizeCell = (c0 :: l0t) :: lrest := by
    have htabL : ∀ cell ∈ (c0 :: l0t) :: lrest, '\t' ∉ cell :=
      fun cell hcl hmem =>
        (cellCharOk_spec _ ((labelOk_spec cell (hall cell hcl)).2.2.2 '\t'
          hmem)).1 rfl
    show (splitCh '\t' (joinCh '\t' ((c0 :: l0t) :: lrest))).map
      normalizeCell = _
    rw [splitCh_joinCh '\t' _ (by simp) htabL]
    exact map_id_of _ _ (fun l hl => (labelOk_spec l (hall l hl)).2.1)
  have e2 : (splitCh '\t' (renderLine (digits.map digitCell))).map
      normalizeCell = digits.map digitCell := by
    obtain ⟨hdlen, -, hbound⟩ := isValidDigitArray_unpack digits hD
    have hdne : digits ≠ [] := by
      intro hn
      rw [hn] at hdlen
      simp at hdlen
    have hmne : digits.map digitCell ≠ [] := by
      intro hn
      exact hdne (List.map_eq_nil_iff.mp hn)
    have htabD : ∀ cell ∈ digits.map digitCell, '\t' ∉ cell := by
      intro cell hcl hmem
      obtain ⟨d, hd, hdc⟩ := List.mem_map.mp hcl
      obtain ⟨hb0, hb9⟩ := hbound d hd
      rw [← hdc] at hmem
      exact (cellCharOk_spec _ ((digitCell_facts d hb0 hb9).2.2.1 '\t' hmem)).1
        rfl
    show (splitCh '\t' (joinCh '\t' (digits.map digitCell))).map
      normalizeCell = _
    rw [splitCh_joinCh '\t' _ hmne htabD]
    refine map_id_of _ _ (fun cell hcl => ?_)
    obtain ⟨d, hd, hdc⟩ := List.mem_map.mp hcl
    obtain ⟨hb0, hb9⟩ := hbound d hd
    rw [← hdc]
    exact (digitCell_facts d hb0 hb9).1
  have e3 : owners.map ((fun line => (splitCh '\t' line).map normalizeCell) ∘
      renderLine) = owners.map (fun row => row.map normalizeCell) :=
    List.map_congr_left (fun row hrow => by
      simp only [Function.comp_apply]
      exact owner_row_split row (hR row hrow))
  have hfilter : ∀ row ∈ ((c0 :: l0t) :: lrest) :: digits.map digitCell ::
      owners.map (fun row => row.map normalizeCell), rowNonBlank row = true := by
    intro row hrow
    rcases List.mem_cons.mp hrow with h | hrow2
    · subst h
      exact rowNonBlank_of_mem _ (c0 :: l0t) (List.mem_cons_self _ _)
        (by simp)
    · rcases List.mem_cons.mp hrow2 with h | hrow3
      · subst h
        obtain ⟨hdlen, -, hbound⟩ := isValidDigitArray_unpack digits hD
        have hdne : digits ≠ [] := by
          intro hn
          rw [hn] at hdlen
          simp at hdlen
        obtain ⟨d, hd⟩ := List.exists_mem_of_ne_nil digits hdne
        obtain ⟨hb0, hb9⟩ := hbound d hd
        exact rowNonBlank_of_mem _ (digitCell d)
          (List.mem_map_of_mem digitCell hd) (digitCell_facts d hb0 hb9).2.2.2.1
      · obtain ⟨orow, horow, hor⟩ := List.mem_map.mp hrow3
        rw [← hor]
        exact owner_row_nonblank orow (hR orow horow)
  show parseRows (renderGrid (renderLine ((c0 :: l0t) :: lrest) ::
    renderLine (digits.map digitCell) :: owners.map renderLine)) = _
  simp only [parseRows]
  rw [hpl, if_pos htab_any, List.map_cons, List.map_cons, List.map_map]
  rw [e1, e2, e3]
  exact List.filter_eq_self.mpr hfilter

theorem parseRows_render (labels : List Str) (digits : List Int)
    (owners : List (List Str))
    (hL : labelsOk labels = true)
    (hD : isValidDigitArray digits = true)
    (hO : owners.length = 10)
    (hR : ∀ row ∈ owners, rowOk row = true) :
    parseRows (pastedGrid labels digits owners) =
      labels :: digits.map digitCell ::
        owners.map (fun row => row.map normalizeCell) := by
  have hLu : labels.length = 10 ∧ (∀ l ∈ labels, labelOk l = true) ∧
      ¬((labels.headD []).headD ' ' = quoteChar) ∧
      ¬((labels.headD []).headD ' ' = aposChar) ∧
      ¬((labels.headD []).headD ' ' = '(') ∧
      ¬((labels.headD []).headD ' ' = Char.ofNat 0x201C) := by
    simp only [labelsOk, Bool.and_eq_true, beq_iff_eq, List.all_eq_true,
      Bool.not_or, Bool.not_eq_true', decide_eq_false_iff_not] at hL
    tauto
  obtain ⟨hlen10, hall, hqC, haC, hpC, hcC⟩ := hLu
  rcases labels with _ | ⟨l0, lrest⟩
  · simp at hlen10
  · obtain ⟨hl0ne, -, -, -⟩ := labelOk_spec l0 (hall l0 (List.mem_cons_self _ _))
    rcases l0 with _ | ⟨c0, l0t⟩
    · exact absurd rfl hl0ne
    · simp only [List.headD_cons] at hqC haC hpC hcC
      exact parseRows_render_aux c0 l0t lrest digits owners hlen10 hall
        hqC haC hpC hcC hD hO hR

theorem reduceOption_map_some (l : List Int) :
    (l.map some).reduceOption = l := by
  induction l with
  | nil => rfl
  | cons a t ih => simp [List.reduceOption_cons_of_some, ih]

theorem extractDigitsGo_none :
    ∀ (cells : List Str) (start : Nat),
      (∀ c ∈ cells, maybeDigit c = none) →
      extractDigitsGo start cells = none := by
  intro cells
  induction cells with
  | nil => intro start _; rfl
  | cons c rest ih =>
    intro start h
    simp only [extractDigitsGo]
    by_cases hlen : (c :: rest).length < 10
    · rw [if_pos hlen]
    · rw [if_neg hlen]
      have hfail :
          ((((c :: rest).take 10).map maybeDigit).all Option.isSome) = false := by
        have h10 : (c :: rest).take 10 = c :: rest.take 9 := rfl
        rw [h10, List.map_cons, h c (List.mem_cons_self _ _)]
        rfl
      rw [if_neg (fun hcon => Bool.false_ne_true (hfail ▸ hcon))]
      exact ih (start + 1) (fun x hx => h x (List.mem_cons_of_mem c hx))

theorem extractDigitsGo_hit (start : Nat) (cells : List Str) (digits : List Int)
    (hlen : cells.length = 10)
    (hmap : cells.map maybeDigit = digits.map some)
    (hval : isValidDigitArray digits = true) :
    extractDigitsGo start cells = some (start, digits) := by
  cases cells with
  | nil => simp at hlen
  | cons c rest =>
    have htake : (c :: rest).take 10 = c :: rest :=
      List.take_of_length_le (le_of_eq hlen)
    have hnlt : ¬(c :: rest).length < 10 := by omega
    simp only [extractDigitsGo]
    rw [if_neg hnlt, htake, hmap]
    have hsome : ((digits.map some).all Option.isSome) = true := by
      rw [List.all_eq_true]
      intro x hx
      obtain ⟨d, -, hd⟩ := List.mem_map.mp hx
      rw [← hd]
      rfl
    rw [if_pos hsome, reduceOption_map_some digits, if_pos hval]

theorem extractDigitsFromRow_labels (labels : List Str)
    (hall : ∀ l ∈ labels, labelOk l = true) :
    extractDigitsFromRow labels = none :=
  extractDigitsGo_none labels 0 (fun l hl => (labelOk_spec l (hall l hl)).2.2.1)

theorem extractDigitsFromRow_digits (digits : List Int)
    (hD : isValidDigitArray digits = true) :
    extractDigitsFromRow (digits.map digitCell) = some (0, digits) := by
  obtain ⟨hlen, -, hbound⟩ := isValidDigitArray_unpack digits hD
  apply extractDigitsGo_hit
  · rw [List.length_map]
    exact hlen
  · rw [List.map_map]
    exact List.map_congr_left (fun d hd => by
      simp only [Function.comp_apply]
      exact (digitCell_facts d (hbound d hd).1 (hbound d hd).2).2.1)
  · exact hD

theorem findHeader_render (labels dRow : List Str) (oRows : List (List Str))
    (digits : List Int)
    (hnone : extractDigitsFromRow labels = none)
    (hhit : extractDigitsFromRow dRow = some (0, digits)) :
    findHeader (labels :: dRow :: oRows) = some (1, 0, digits) := by
  have h1 : findHeaderGo 1 (dRow :: oRows) = some (1, 0, digits) := by
    simp only [findHeaderGo]
    rw [hhit]
  unfold findHeader
  simp only [findHeaderGo]
  rw [hnone, hhit]

theorem collectOwnersGo_all :
    ∀ (rows : List (List Str)) (accR : List (List Str))
      (accA : List (Option Int)),
      (∀ row ∈ rows, row.length = 10 ∧ row.all List.isEmpty = false) →
      accR.length + rows.length = 10 →
      collectOwnersGo 0 rows (accR, accA) =
        (accR ++ rows.map (fun r => r.map normalizeOwnerName),
         accA ++ rows.map (fun _ => (none : Option Int))) := by
  intro rows
  induction rows with
  | nil =>
    intro accR accA _ _
    simp [collectOwnersGo]
  | cons row rest ih =>
    intro accR accA hrows hlen
    obtain ⟨hr10, hrne⟩ := hrows row (List.mem_cons_self _ _)
    simp only [collectOwnersGo]
    rw [if_neg (by rw [hr10]; decide)]
    have hslice : (row.drop 0).take 10 = row := by
      rw [List.drop_zero]
      exact List.take_of_length_le (le_of_eq hr10)
    rw [hslice]
    rw [if_neg (by rw [hrne]; exact Bool.false_ne_true)]
    rw [if_neg (show ¬(0 : Nat) < 0 by decide)]
    by_cases hstop : (accR ++ [row.map normalizeOwnerName]).length = 10
    · rw [if_pos hstop]
      have hrl : rest.length = 0 := by
        rw [List.length_append, List.length_singleton] at hstop
        simp only [List.length_cons] at hlen
        omega
      have hrest : rest = [] := List.length_eq_zero.mp hrl
      subst hrest
      simp
    · rw [if_neg hstop]
      have hlen2 : (accR ++ [row.map normalizeOwnerName]).length +
          rest.length = 10 := by
        rw [List.length_append, List.length_singleton]
        simp only [List.length_cons] at hlen
        omega
      rw [ih (accR ++ [row.map normalizeOwnerName]) (accA ++ [none])
        (fun r hr => hrows r (List.mem_cons_of_mem row hr)) hlen2]
      simp

theorem getD_zero_eq_headD {α : Type} (l : List α) (d : α) :
    l.getD 0 d = l.headD d := by
  cases l <;> rfl

theorem labelsOk_spec (labels : List Str) (h : labelsOk labels = true) :
    labels.length = 10 ∧ (∀ l ∈ labels, labelOk l = true) := by
  simp only [labelsOk, Bool.and_eq_true, beq_iff_eq, List.all_eq_true,
    Bool.not_or, Bool.not_eq_true', decide_eq_false_iff_not] at h
  tauto

theorem parseStartCol_eq (rows : List (List Str)) (i startCol : Nat)
    (digits : List Int)
    (hfh : findHeader rows = some (i, startCol, digits)) :
    parseStartCol rows = startCol := by
  unfold parseStartCol
  rw [hfh]

theorem parseHomeDigits_eq (rows : List (List Str)) (i startCol : Nat)
    (digits : List Int)
    (hfh : findHeader rows = some (i, startCol, digits)) :
    parseHomeDigits rows = digits := by
  unfold parseHomeDigits
  rw [hfh]

theorem parseOwnersStartRow_eq (rows : List (List Str)) (i startCol : Nat)
    (digits : List Int)
    (hfh : findHeader rows = some (i, startCol, digits)) :
    parseOwnersStartRow rows = i + 1 := by
  unfold parseOwnersStartRow
  rw [hfh]

theorem parseHomeTeam_eq (rows : List (List Str)) (i startCol : Nat)
    (digits : List Int)
    (hfh : findHeader rows = some (i, startCol, digits))
    (hi : 0 < i)
    (hcand : (rows.getD (i - 1) []).getD startCol [] ≠ [] ∧
      maybeDigit ((rows.getD (i - 1) []).getD startCol []) = none) :
    parseHomeTeam rows = (rows.getD (i - 1) []).getD startCol [] := by
  have hsc : parseStartCol rows = startCol :=
    parseStartCol_eq rows i startCol digits hfh
  unfold parseHomeTeam
  rw [hfh]
  show (if 0 < i then
      if (rows.getD (i - 1) []).getD (parseStartCol rows) [] ≠ [] ∧
          maybeDigit ((rows.getD (i - 1) []).getD (parseStartCol rows) []) =
            none then
        (rows.getD (i - 1) []).getD (parseStartCol rows) []
      else "Home Team".toList
    else "Home Team".toList) = _
  rw [hsc, if_pos hi, if_pos hcand]

theorem parseAwayTeam_default (rows : List (List Str))
    (hsc : parseStartCol rows ≤ 1) :
    parseAwayTeam rows = "Away Team".toList := by
  unfold parseAwayTeam
  rw [if_neg (fun hcon => absurd hcon.2 (by omega))]

/-- C2 (amended): a correctly formatted 10x10 tab-separated pasted grid
with a non-digit label row and a valid 10-digit header row parses to a
board whose `homeDigits` equal the header digits in order, whose
ownership grid excludes the label and header rows, and whose every
ownership cell is the pasted cell text after whitespace collapsing
*followed by owner-name canonicalization* (near-miss spellings of the
configured participant name are rewritten to the display name rather
than reproduced verbatim); the away axis degrades to natural order and
the home team label is the first label cell. -/
theorem claim_C2_amended_round_trip (labels : List Str) (digits : List Int)
    (owners : List (List Str))
    (hL : labelsOk labels = true)
    (hD : isValidDigitArray digits = true)
    (hO : owners.length = 10)
    (hR : ∀ row ∈ owners, rowOk row = true) :
    parseSquaresFromPastedText (pastedGrid labels digits owners) =
      .ok ⟨labels.headD [], "Away Team".toList, digits, defaultDigits,
        owners.map (fun row => row.map
          (fun cell => normalizeOwnerName (normalizeCell cell)))⟩ := by
  obtain ⟨hlen10, hall⟩ := labelsOk_spec labels hL
  have hrows := parseRows_render labels digits owners hL hD hO hR
  have hfh : findHeader (labels :: digits.map digitCell ::
      owners.map (fun row => row.map normalizeCell)) = some (1, 0, digits) :=
    findHeader_render labels (digits.map digitCell) _ digits
      (extractDigitsFromRow_labels labels hall)
      (extractDigitsFromRow_digits digits hD)
  have hsc := parseStartCol_eq _ 1 0 digits hfh
  have hhd := parseHomeDigits_eq _ 1 0 digits hfh
  have hosr := parseOwnersStartRow_eq _ 1 0 digits hfh
  have hlne : labels ≠ [] := by
    intro hn
    rw [hn] at hlen10
    simp at hlen10
  obtain ⟨l0, lrest, hl⟩ := List.exists_cons_of_ne_nil hlne
  obtain ⟨hl0ne, -, hl0md, -⟩ := labelOk_spec l0
    (hall l0 (by rw [hl]; exact List.mem_cons_self _ _))
  have hcand : ((labels :: digits.map digitCell ::
      owners.map (fun row => row.map normalizeCell)).getD (1 - 1) []).getD
        0 [] = labels.headD [] := by
    show ((labels :: digits.map digitCell ::
      owners.map (fun row => row.map normalizeCell)).getD 0 []).getD 0 [] = _
    rw [List.getD_cons_zero, getD_zero_eq_headD]
  have hheadD : labels.headD [] = l0 := by
    rw [hl]
    rfl
  have hhome : parseHomeTeam (labels :: digits.map digitCell ::
      owners.map (fun row => row.map normalizeCell)) = labels.headD [] := by
    have hc : ((labels :: digits.map digitCell ::
        owners.map (fun row => row.map normalizeCell)).getD (1 - 1) []).getD
          0 [] ≠ [] ∧
        maybeDigit (((labels :: digits.map digitCell ::
          owners.map (fun row => row.map normalizeCell)).getD (1 - 1)
            []).getD 0 []) = none := by
      rw [hcand, hheadD]
      exact ⟨hl0ne, hl0md⟩
    rw [parseHomeTeam_eq _ 1 0 digits hfh (by decide) hc]
    exact hcand
  have haway : parseAwayTeam (labels :: digits.map digitCell ::
      owners.map (fun row => row.map normalizeCell)) = "Away Team".toList :=
    parseAwayTeam_default _ (by rw [hsc]; decide)
  have hprops : ∀ row ∈ owners.map (fun row => row.map normalizeCell),
      row.length = 10 ∧ row.all List.isEmpty = false := by
    intro row hrow
    obtain ⟨orow, horow, hor⟩ := List.mem_map.mp hrow
    subst hor
    obtain ⟨holen, -, -⟩ := rowOk_spec orow (hR orow horow)
    constructor
    · rw [List.length_map, holen]
    · have hnb := owner_row_nonblank orow (hR orow horow)
      cases hallb : (orow.map normalizeCell).all List.isEmpty with
      | false => rfl
      | true =>
        obtain ⟨cell, hm, hcc⟩ := List.any_eq_true.mp hnb
        have hie := List.all_eq_true.mp hallb cell hm
        rw [hie] at hcc
        exact absurd hcc (by decide)
  have hcoll : parseCollected (labels :: digits.map digitCell ::
      owners.map (fun row => row.map normalizeCell)) =
      (owners.map (fun row => row.map
          (fun cell => normalizeOwnerName (normalizeCell cell))),
       owners.map (fun _ => (none : Option Int))) := by
    unfold parseCollected
    rw [hsc, hosr]
    show collectOwnersGo 0 (owners.map (fun row => row.map normalizeCell))
      ([], []) = _
    rw [collectOwnersGo_all _ [] [] hprops (by simp [hO])]
    simp only [List.nil_append, Prod.mk.injEq]
    constructor
    · rw [List.map_map]
      exact List.map_congr_left (fun row _ => by
        simp only [Function.comp_apply]
        rw [List.map_map]
        exact List.map_congr_left (fun _ _ => rfl))
    · rw [List.map_map]
      exact List.map_congr_left (fun _ _ => rfl)
  have hmapconst : owners.map (fun _ => (none : Option Int)) =
      List.replicate 10 none := by
    rw [List.map_const' owners none, hO]
  have hRlen : (labels :: digits.map digitCell ::
      owners.map (fun row => row.map normalizeCell)).length = 12 := by
    simp [hO]
  unfold parseSquaresFromPastedText
  rw [hrows]
  rw [if_neg (by rw [hRlen]; decide)]
  rw [hcoll, hhome, haway, hhd]
  rw [if_neg (show ¬((owners.map (fun row => row.map
      (fun cell => normalizeOwnerName (normalizeCell cell))),
      owners.map (fun _ => (none : Option Int))).1.length ≠ 10) by
    simp [hO])]
  show (Except.ok ⟨labels.headD [], "Away Team".toList, digits,
      (if isValidDigitArray (awayDigitsResolve (owners.map
          (fun _ => (none : Option Int)))) then
        awayDigitsResolve (owners.map (fun _ => (none : Option Int)))
      else defaultDigits),
      owners.map (fun row => row.map
        (fun cell => normalizeOwnerName (normalizeCell cell)))⟩ :
    Except ParseError SquaresBoard) = _
  rw [hmapconst]
  rw [if_pos (show isValidDigitArray (awayDigitsResolve
      (List.replicate 10 (none : Option Int))) = true by decide)]
  rw [show awayDigitsResolve (List.replicate 10 (none : Option Int)) =
      defaultDigits by decide]

/-- C2 counterexample: a correctly formatted 10x10 tab-separated grid
with a valid header row whose first ownership cell reads "Steve"; the
extracted board rewrites that cell to "Steven", so it does not reproduce
the pasted cell text verbatim modulo whitespace collapsing. -/
theorem claim_C2_counterexample :
    parseSquaresFromPastedText
        (pastedGrid sampleLabels defaultDigits cexOwners) =
      .ok ⟨"A".toList, "Away Team".toList, defaultDigits, defaultDigits,
        cexParsedOwners⟩ ∧
    (cexParsedOwners.headD []).headD [] ≠
      normalizeCell ((cexOwners.headD []).headD []) :=
  ⟨by decide, by decide⟩

/-- C2 witness: the amended round-trip theorem evaluated on the
Scenario C sample grid. -/
theorem claim_C2_witness :
    parseSquaresFromPastedText
        (pastedGrid sampleLabels defaultDigits sampleOwners) =
      .ok ⟨sampleLabels.headD [], "Away Team".toList, defaultDigits,
        defaultDigits, sampleOwners.map (fun row => row.map
          (fun cell => normalizeOwnerName (normalizeCell cell)))⟩ :=
  claim_C2_amended_round_trip sampleLabels defaultDigits sampleOwners
    (by decide) (by decide) (by decide) (by decide)

/-- C8 witness: a two-row pasted input is rejected as underfilled. -/
theorem claim_C8_witness :
    parseSquaresFromPastedText "x\ty\nz\tw\n".toList =
      .error .underfilledPastedInput :=
  (claim_C8_underfilled_input "x\ty\nz\tw\n".toList).1 (by decide)
